import Mathlib

/-
Verification of the AsyncScheduler core of the tyutils repository.

The scheduler (class AsyncScheduler, src/AsyncScheduler.ts) is embedded as a
small-step state machine.  JavaScript runs on a single-threaded event loop, so
every synchronous segment of the code executes atomically; a step of the model
is exactly one such segment:

  * a public method call (addTask / start / pause / resume / cancelTask /
    abortAll), which runs synchronously, including the synchronous prefix of
    every _runNext it triggers (up to the `await this._executeTask(task)`
    suspension point); and
  * the settlement of one in-flight task's race
    (Promise.race([taskPromise, abortPromise, timeoutPromise?])), which runs
    the catch/finally continuation of that task's _runNext call synchronously,
    including the `this._runNext()` in the finally block.

Which in-flight task settles, and with which outcome, is chosen by the
environment (a `settle` action), subject to `allowedOutcome`: a task admitted
with an already-aborted composed signal was started on an already-rejected
promise and can only settle with the cancellation error; a timeout rejection
requires a positive effective timeout; a cancellation rejection requires the
composed signal to have fired.

Cancellation sources (AbortController / AbortSignal.any) are modelled by
flags: each task record carries its intrinsic controller flag, the generation
number of the scheduler's global controller at add time (abortAll aborts the
current controller and replaces it, i.e. bumps the generation, so a task's
global source has fired iff its recorded generation is below the current one),
and an optional external signal flag the environment may fire.

Event emission appends to a trace.  External handlers are observers; the only
internal listener in the source is the one start() registers on "finish",
whose effect (set _completed, resolve the completion promise with the current
asyncResults) is applied at every finish emission, once per registered
listener, exactly as the source does.  Promises are modelled by an indexed
store of settlement states; a JS promise settles at most once, so resolution
is first-write-wins.  Claim C8 is about handlers that throw; the `_emit`
forEach loop is embedded separately below (`emitRun`) with explicit handler
behaviours.

The uuid ids of the source are modelled by a fresh-id counter; the heap of
task objects is a function from ids to records (task objects are shared
between the queue, the registry map and the closures of in-flight executions,
and they outlive registry removal, which this representation captures).
The `fnCalls` field instruments the number of invocations of the task's work
callable `fn` (incremented exactly where `_executeTask` evaluates
`fn(signal)`); it influences nothing.
-/

set_option autoImplicit false

namespace Tyutils

/-- Errors produced by task execution, mirroring the `new Error(...)` values in
`_executeTask` ("Task Cancelled", "Timeout") plus arbitrary rejections of the
work callable itself. -/
inductive Err where
  | cancelled
  | timeout
  | exec (code : Nat)
deriving DecidableEq

/-- Lifecycle events (`EventType` plus payloads), as `_emit` publishes them. -/
inductive SchedEvent where
  | start (id : Nat)
  | success (id : Nat) (v : Nat)
  | error (id : Nat) (e : Err)
  | retry (id : Nat) (attempt : Nat) (e : Err)
  | finish
deriving DecidableEq

/-- Settlement of one in-flight execution's race. -/
inductive Outcome where
  | ok (v : Nat)
  | err (e : Err)
deriving DecidableEq

/-- One task object (interface Task): priority / retry / timeout as stored by
`addTask` (`options?.retry ?? 0`, `options?.timeout ?? this._timeout`), the
attempt counter, the intrinsic AbortController flag, the global-controller
generation at add time, the optional external signal and its flag, and the
`fnCalls` instrumentation counter. -/
structure TaskRec where
  priority : Int
  retryOpt : Nat
  timeoutOpt : Nat
  hasExternal : Bool
  externalFired : Bool
  globalGen : Nat
  attempt : Nat
  intrinsicAborted : Bool
  fnCalls : Nat
deriving DecidableEq

/-- The value stored for ids that were never allocated. -/
def defaultTask : TaskRec :=
  { priority := 0, retryOpt := 0, timeoutOpt := 0, hasExternal := false,
    externalFired := false, globalGen := 0, attempt := 0,
    intrinsicAborted := false, fnCalls := 0 }

/-- An in-flight execution: the task id and whether `fn` was actually invoked
(false exactly when `_executeTask` saw `signal.aborted` and returned the
already-rejected promise without calling `fn`). -/
structure Flight where
  id : Nat
  fnInvoked : Bool
deriving DecidableEq

/-- Settlement state of one JS promise. -/
inductive PromiseSt where
  | unresolved
  | resolvedOk (vs : List Nat)
  | rejected (e : Err)
deriving DecidableEq

/-- What a call to start() returns: an immediately-resolved value, or a
(possibly pending) stored promise identified by its index. -/
inductive StartRet where
  | resolvedNow (vs : List Nat)
  | pending (p : Option Nat)
deriving DecidableEq

/-- Constructor options (AsyncSchedulerOptions) after defaulting
(concurrency ?? 5, retry ?? 0, timeout ?? 0, autoStart ?? false). -/
structure Config where
  concurrency : Nat
  retry : Nat
  timeout : Nat
  autoStart : Bool
deriving DecidableEq

/-- The scheduler instance state.  Fields mirror the private fields of class
AsyncScheduler; `store`/`nextId` model the heap of task objects keyed by id,
`tasks` the key set of the `_tasks` map, `trace` the sequence of emitted
events, `promises`/`onFinishP`/`finishListeners` the completion promise
machinery of start(), and `globalGen` the current global AbortController. -/
structure AsyncScheduler where
  cfg : Config
  store : Nat → TaskRec
  nextId : Nat
  tasks : List Nat
  taskQuene : List Nat
  inFlight : List Flight
  running : Int
  paused : Bool
  started : Bool
  completed : Bool
  trace : List SchedEvent
  asyncResults : List Nat
  promises : List PromiseSt
  onFinishP : Option Nat
  finishListeners : List Nat
  globalGen : Nat

/-- A freshly constructed scheduler. -/
def initScheduler (cfg : Config) : AsyncScheduler :=
  { cfg := cfg, store := fun _ => defaultTask, nextId := 0, tasks := [],
    taskQuene := [], inFlight := [], running := 0, paused := false,
    started := false, completed := false, trace := [], asyncResults := [],
    promises := [], onFinishP := none, finishListeners := [], globalGen := 0 }

namespace AsyncScheduler

/-- Read a task object from the heap. -/
def getTask (s : AsyncScheduler) (id : Nat) : TaskRec :=
  s.store id

/-- Write a task object back to the heap. -/
def setTask (s : AsyncScheduler) (id : Nat) (t : TaskRec) : AsyncScheduler :=
  { s with store := fun j => if j = id then t else s.store j }

/-- Priority of a task id under a given heap. -/
def prioOf (store : Nat → TaskRec) (id : Nat) : Int :=
  (store id).priority

/-- Whether the composed signal (AbortSignal.any of the intrinsic controller,
the global controller at add time, and the optional external signal) has
fired. -/
def composedFired (s : AsyncScheduler) (t : TaskRec) : Bool :=
  t.intrinsicAborted || decide (t.globalGen < s.globalGen) ||
    (t.hasExternal && t.externalFired)

/-- The effective max-retries computation in the catch block of `_runNext`:
`task.options.retry > 0 ? task.options.retry : this._retry`. -/
def effMaxRetries (schedRetry : Nat) (t : TaskRec) : Nat :=
  if 0 < t.retryOpt then t.retryOpt else schedRetry

/-- The queue ordering comparator: `(a, b) => b.options.priority -
a.options.priority`, i.e. a may precede b iff b's priority is at most a's.
JS Array.prototype.sort is stable, and a stable sort is uniquely determined,
so the stable insertionSort with this relation is the sorted array. -/
def quenRel (store : Nat → TaskRec) : Nat → Nat → Prop :=
  fun a b => prioOf store b ≤ prioOf store a

instance quenRelDecidable (store : Nat → TaskRec) : DecidableRel (quenRel store) :=
  fun a b => inferInstanceAs (Decidable (prioOf store b ≤ prioOf store a))

instance quenRelTotal (store : Nat → TaskRec) : IsTotal Nat (quenRel store) :=
  ⟨fun a b => (le_total (prioOf store b) (prioOf store a)).imp id id⟩

instance quenRelTrans (store : Nat → TaskRec) : IsTrans Nat (quenRel store) :=
  ⟨fun _ _ _ hab hbc => le_trans hbc hab⟩

/-- `this._taskQuene.sort((a, b) => b.options.priority - a.options.priority)`. -/
def sortQuene (store : Nat → TaskRec) (q : List Nat) : List Nat :=
  List.insertionSort (quenRel store) q

/-- Append one event to the trace (an `_emit` whose handlers are observers). -/
def emitEv (s : AsyncScheduler) (e : SchedEvent) : AsyncScheduler :=
  { s with trace := s.trace ++ [e] }

/-- Resolve promise `i` with `vs` if it is still unresolved (a JS promise
settles at most once; later resolve calls are no-ops). -/
def resolveP (ps : List PromiseSt) (i : Nat) (vs : List Nat) : List PromiseSt :=
  match ps[i]? with
  | some .unresolved => ps.set i (.resolvedOk vs)
  | _ => ps

/-- Effect of the internal listeners registered by start() on "finish": each
sets `_completed = true` and resolves its completion promise with the current
`asyncResults`. -/
def runFinishListeners (s : AsyncScheduler) : AsyncScheduler :=
  { s with
    completed := s.completed || !s.finishListeners.isEmpty,
    promises := s.finishListeners.foldl (fun ps i => resolveP ps i s.asyncResults) s.promises }

/-- `this._emit("finish")`: append the event and run the internal listeners. -/
def emitFinish (s : AsyncScheduler) : AsyncScheduler :=
  runFinishListeners (emitEv s .finish)

/-- Admission of the shifted task in `_runNext`: increment `_running`, emit
"start", and run `_executeTask` synchronously — it either returns an
already-rejected promise when the composed signal has fired, without invoking
`fn`, or invokes `fn`; either way the execution is left in flight. -/
def admitTask (s : AsyncScheduler) (id : Nat) (rest : List Nat) : AsyncScheduler :=
  let s1 := { s with taskQuene := rest, running := s.running + 1 }
  let s2 := emitEv s1 (.start id)
  let t := s2.getTask id
  if s2.composedFired t then
    { s2 with inFlight := s2.inFlight ++ [⟨id, false⟩] }
  else
    let s3 := s2.setTask id { t with fnCalls := t.fnCalls + 1 }
    { s3 with inFlight := s3.inFlight ++ [⟨id, true⟩] }

/-- The synchronous prefix of `_runNext`, up to its suspension point: the
paused and concurrency guards, the shift, the empty-queue finish emission, or
the admission of the shifted task. -/
def runNext (s : AsyncScheduler) : AsyncScheduler :=
  if s.paused then s
  else if (s.cfg.concurrency : Int) ≤ s.running then s
  else
    match s.taskQuene with
    | [] => if s.running = 0 then emitFinish s else s
    | id :: rest => admitTask s id rest

/-- Iterate `runNext` (the for-loops of start() and resume()). -/
def runNextN : Nat → AsyncScheduler → AsyncScheduler
  | 0, s => s
  | n + 1, s => runNextN n (runNext s)

/-- `addTask`: allocate a fresh id, build the task record with defaulted
options and the composed signal sources, insert into the `_tasks` map, push
onto the queue and re-sort it, and under autoStart attempt one admission. -/
def addTask (s : AsyncScheduler) (priority : Int) (retryO timeoutO : Option Nat)
    (hasExt : Bool) : AsyncScheduler :=
  let id := s.nextId
  let t : TaskRec :=
    { priority := priority, retryOpt := retryO.getD 0,
      timeoutOpt := timeoutO.getD s.cfg.timeout, hasExternal := hasExt,
      externalFired := false, globalGen := s.globalGen, attempt := 0,
      intrinsicAborted := false, fnCalls := 0 }
  let store' := fun j => if j = id then t else s.store j
  let s' :=
    { s with store := store', nextId := id + 1, tasks := s.tasks ++ [id],
             taskQuene := sortQuene store' (s.taskQuene ++ [id]) }
  if s'.cfg.autoStart then runNext s' else s'

/-- `start()`: no-op (with an immediate result) when completed; return of the
stored promise when already started; otherwise mark started, create the
completion promise, register the internal "finish" listener, and attempt
`_concurrency` admissions. -/
def start (s : AsyncScheduler) : AsyncScheduler :=
  if s.completed then s
  else if s.started then s
  else
    let pidx := s.promises.length
    let s' :=
      { s with started := true, promises := s.promises ++ [.unresolved],
               onFinishP := some pidx,
               finishListeners := s.finishListeners ++ [pidx] }
    runNextN s'.cfg.concurrency s'

/-- The value `start()` returns in a given state. -/
def startReturn (s : AsyncScheduler) : StartRet :=
  if s.completed then .resolvedNow s.asyncResults
  else if s.started then .pending s.onFinishP
  else .pending (some s.promises.length)

/-- `pause()`. -/
def pause (s : AsyncScheduler) : AsyncScheduler :=
  { s with paused := true }

/-- `resume()`: clear the paused flag and attempt
`this._concurrency - this._running` admissions. -/
def resume (s : AsyncScheduler) : AsyncScheduler :=
  if !s.paused then s
  else
    let s' := { s with paused := false }
    runNextN ((s'.cfg.concurrency : Int) - s'.running).toNat s'

/-- `cancelTask(id)`: unknown id is a no-op; a queued task is evicted from the
queue and the registry; otherwise the intrinsic controller is aborted. -/
def cancelTask (s : AsyncScheduler) (id : Nat) : AsyncScheduler :=
  if id ∈ s.tasks then
    if id ∈ s.taskQuene then
      { s with taskQuene := s.taskQuene.erase id, tasks := s.tasks.erase id }
    else
      s.setTask id { s.getTask id with intrinsicAborted := true }
  else s

/-- `abortAll()`: no-op when not started; otherwise set the paused flag,
discard the queue, abort the global controller and replace it with a fresh
one (generation bump), clear the registry, and reset `_running` and
`_started`. -/
def abortAll (s : AsyncScheduler) : AsyncScheduler :=
  if !s.started then s
  else
    { s with paused := true, taskQuene := [], globalGen := s.globalGen + 1,
             tasks := [], running := 0, started := false }

/-- Fire a task's caller-supplied external cancellation signal. -/
def fireExternal (s : AsyncScheduler) (id : Nat) : AsyncScheduler :=
  let t := s.getTask id
  if t.hasExternal then s.setTask id { t with externalFired := true } else s

/-- Extract the first in-flight record with the given id. -/
def extractFlight : List Flight → Nat → Option (Flight × List Flight)
  | [], _ => none
  | f :: fs, id =>
    if f.id = id then some (f, fs)
    else
      match extractFlight fs id with
      | none => none
      | some (g, rest) => some (g, f :: rest)

/-- Which settlements the race in `_executeTask` can deliver: a flight whose
promise was rejected before `fn` was invoked settles only with the
cancellation error; otherwise `fn` may settle either way, the timeout
rejection exists only when the effective timeout is positive, and the abort
rejection requires the composed signal to have fired. -/
def allowedOutcome (s : AsyncScheduler) (t : TaskRec) (f : Flight) (o : Outcome) : Bool :=
  if f.fnInvoked then
    match o with
    | .ok _ => true
    | .err (.exec _) => true
    | .err .timeout => decide (0 < t.timeoutOpt)
    | .err .cancelled => s.composedFired t
  else decide (o = Outcome.err .cancelled)

/-- The catch/finally continuation of `_runNext` once the awaited race has
settled: push the result and emit "success", or run the retry-or-terminal
branch of the catch block (effective max retries, attempt increment, "retry"
emission and unshift, or "error" emission), then the finally block
(`this._running--; this._runNext()`). -/
def settleCont (s : AsyncScheduler) (id : Nat) (o : Outcome) : AsyncScheduler :=
  let sDone :=
    match o with
    | .ok v =>
      emitEv { s with asyncResults := s.asyncResults ++ [v] } (.success id v)
    | .err e =>
      let t := s.getTask id
      let maxR := effMaxRetries s.cfg.retry t
      if t.attempt < maxR then
        let s' := s.setTask id { t with attempt := t.attempt + 1 }
        let s'' := emitEv s' (.retry id (t.attempt + 1) e)
        { s'' with taskQuene := id :: s''.taskQuene }
      else emitEv s (.error id e)
  runNext { sDone with running := sDone.running - 1 }

end AsyncScheduler

/-- One atomic step: a public method call, the firing of an external signal,
or the settlement of one in-flight execution. -/
inductive Act where
  | addTask (priority : Int) (retryO timeoutO : Option Nat) (hasExt : Bool)
  | start
  | pause
  | resume
  | cancelTask (id : Nat)
  | abortAll
  | fireExternal (id : Nat)
  | settle (id : Nat) (o : Outcome)

open AsyncScheduler in
/-- The step function of the model. -/
def step (s : AsyncScheduler) : Act → AsyncScheduler
  | .addTask p r t h => s.addTask p r t h
  | .start => s.start
  | .pause => s.pause
  | .resume => s.resume
  | .cancelTask id => s.cancelTask id
  | .abortAll => s.abortAll
  | .fireExternal id => s.fireExternal id
  | .settle id o =>
    match extractFlight s.inFlight id with
    | none => s
    | some (f, rest) =>
      if allowedOutcome s (s.getTask id) f o then
        settleCont { s with inFlight := rest } id o
      else s

/-- Run a scheduler from construction through a sequence of steps. -/
def run (cfg : Config) (acts : List Act) : AsyncScheduler :=
  acts.foldl step (initScheduler cfg)

/-- Recognizer for a "start" event of a given task. -/
def isStartEv (id : Nat) : SchedEvent → Bool
  | .start i => i == id
  | _ => false

/-- Recognizer for a "success" event of a given task. -/
def isSuccessEv (id : Nat) : SchedEvent → Bool
  | .success i _ => i == id
  | _ => false

/-- Recognizer for a "retry" event of a given task. -/
def isRetryEv (id : Nat) : SchedEvent → Bool
  | .retry i _ _ => i == id
  | _ => false

/-- Recognizer for an "error" event of a given task. -/
def isErrorEv (id : Nat) : SchedEvent → Bool
  | .error i _ => i == id
  | _ => false

/-- Recognizer for a "retry" or "error" event of a given task that carries the
cancellation error. -/
def isCancelMark (id : Nat) : SchedEvent → Bool
  | .retry i _ e => i == id && e == Err.cancelled
  | .error i e => i == id && e == Err.cancelled
  | _ => false

/-- Recognizer for the "finish" event. -/
def isFinishEv : SchedEvent → Bool
  | .finish => true
  | _ => false

/-- Number of "start" events emitted for a task (= number of admissions). -/
def startCt (id : Nat) (tr : List SchedEvent) : Nat := tr.countP (isStartEv id)

/-- Number of "success" events emitted for a task. -/
def succCt (id : Nat) (tr : List SchedEvent) : Nat := tr.countP (isSuccessEv id)

/-- Number of "retry" events emitted for a task. -/
def retryCt (id : Nat) (tr : List SchedEvent) : Nat := tr.countP (isRetryEv id)

/-- Number of "error" events emitted for a task. -/
def errCt (id : Nat) (tr : List SchedEvent) : Nat := tr.countP (isErrorEv id)

/-- Number of cancellation-carrying "retry"/"error" events for a task. -/
def cancelMarkCt (id : Nat) (tr : List SchedEvent) : Nat := tr.countP (isCancelMark id)

/-- Number of "finish" events emitted. -/
def finishCt (tr : List SchedEvent) : Nat := tr.countP isFinishEv

namespace AsyncScheduler

/-- Multiplicity of a task id in the pending queue. -/
def inQ (s : AsyncScheduler) (id : Nat) : Nat := s.taskQuene.count id

/-- Number of in-flight executions of a task id. -/
def inF (s : AsyncScheduler) (id : Nat) : Nat :=
  s.inFlight.countP (fun f => f.id == id)

/-- Number of in-flight executions of a task id whose `fn` was never invoked
(admitted with an already-fired composed signal). -/
def inFAb (s : AsyncScheduler) (id : Nat) : Nat :=
  s.inFlight.countP (fun f => f.id == id && !f.fnInvoked)

/-- Current attempt counter of a task. -/
def attemptOf (s : AsyncScheduler) (id : Nat) : Nat := (s.getTask id).attempt

/-- Number of invocations of a task's work callable so far. -/
def fnCallsOf (s : AsyncScheduler) (id : Nat) : Nat := (s.getTask id).fnCalls

/-- The effective max-retries value the catch block would use for a task. -/
def maxROf (s : AsyncScheduler) (id : Nat) : Nat :=
  effMaxRetries s.cfg.retry (s.getTask id)

/-- The pending queue is ordered by priority descending (the ordering the
comparator `(a, b) => b.options.priority - a.options.priority` establishes). -/
def QueueSortedDesc (s : AsyncScheduler) : Prop :=
  List.Sorted (quenRel s.store) s.taskQuene

instance (s : AsyncScheduler) : Decidable (QueueSortedDesc s) :=
  List.instDecidablePairwise s.taskQuene

end AsyncScheduler

/-
Embedding of `_emit` for claim C8.  The source is

    private _emit(event: EventType, ...args: any[]) {
      const listeners = this._events.get(event);
      if (listeners) {
        listeners.forEach((cb) => cb(...args));
      }
    }

A handler is abstracted by its behaviour on the emitted payload: it either
returns or throws an exception.  `Array.prototype.forEach` invokes the
callback for each element in order and has no exception handling, so the
first throwing handler terminates the iteration and the exception propagates
out of `_emit` into its caller.  `emitRun` returns the number of handlers
invoked and the propagated exception, if any.
-/

/-- Behaviour of one registered handler when invoked. -/
inductive HRes where
  | ok
  | fail (e : Nat)
deriving DecidableEq

/-- Running `listeners.forEach((cb) => cb(...args))`: the number of handlers
invoked and the exception that propagates out of `_emit`, if any. -/
def emitRun : List HRes → Nat × Option Nat
  | [] => (0, none)
  | .ok :: hs =>
    let r := emitRun hs
    (r.1 + 1, r.2)
  | .fail e :: _ => (1, some e)

/-- The exception escaping one `_emit` call. -/
def emitEff (hs : List HRes) : Option Nat := (emitRun hs).2

/-- Observable outcome of the settlement segment of `_runNext` (the
try/catch/finally around `await this._executeTask(task)`) when handlers may
throw. -/
structure SettleObs where
  running' : Int
  finallyAdmit : Bool
  tookFailurePath : Bool
  escaped : Option Nat
deriving DecidableEq

/-- The try/catch/finally control flow of `_runNext` around a settled
execution, with emissions that may throw: a successful outcome emits
"success" inside the try block, so a throwing success handler is caught by
the catch block and sent down the failure path (whose own retry/error
emission may throw in turn); a failed outcome runs the failure path directly.
The finally block (`this._running--; this._runNext()`) runs in every case,
and an exception thrown from the catch block escapes after it. -/
def runNextSettleSeg (running : Int) (outcomeOk : Bool)
    (succHs failHs : List HRes) : SettleObs :=
  if outcomeOk then
    match emitEff succHs with
    | none =>
      { running' := running - 1, finallyAdmit := true,
        tookFailurePath := false, escaped := none }
    | some _ =>
      { running' := running - 1, finallyAdmit := true,
        tookFailurePath := true, escaped := emitEff failHs }
  else
    { running' := running - 1, finallyAdmit := true,
      tookFailurePath := true, escaped := emitEff failHs }

/-- Observable outcome of the full admission segment of `_runNext` for one
shifted task: `this._running++; this._emit("start", task.id);` followed by
the try/catch/finally around `await this._executeTask(task)`.  Records
whether the work was invoked, whether the finally block ran, the final
running count relative to the pre-admission value, and the escaping
exception. -/
structure AdmitObs where
  running' : Int
  fnInvoked : Bool
  finallyRan : Bool
  finallyAdmit : Bool
  tookFailurePath : Bool
  escaped : Option Nat
deriving DecidableEq

/-- The admission segment of `_runNext` with handlers that may throw.  The
source increments `this._running`, then emits "start", and only then enters
the `try` block.  A throwing "start" handler therefore raises before the
try/finally is entered: inside the `async` function body this surfaces as a
rejection of the promise `_runNext()` returns (which no call site handles),
the `finally` block never runs — `_running` is never decremented and no
recursive `_runNext()` re-admission happens — and `_executeTask` is never
called for the already-dequeued task.  If the "start" emission returns
normally, execution proceeds into the settlement segment
(`runNextSettleSeg`), whose finally block always runs. -/
def runNextAdmitSeg (running : Int) (startHs : List HRes) (outcomeOk : Bool)
    (succHs failHs : List HRes) : AdmitObs :=
  match emitEff startHs with
  | some e =>
    { running' := running + 1, fnInvoked := false, finallyRan := false,
      finallyAdmit := false, tookFailurePath := false, escaped := some e }
  | none =>
    let o := runNextSettleSeg (running + 1) outcomeOk succHs failHs
    { running' := o.running', fnInvoked := true, finallyRan := true,
      finallyAdmit := o.finallyAdmit, tookFailurePath := o.tookFailurePath,
      escaped := o.escaped }

/-- The concurrency-bound invariant used for claim C1. -/
def RunLE (s : AsyncScheduler) : Prop :=
  s.running ≤ (s.cfg.concurrency : Int)

/-- The started-implies-promise invariant used for claim C9. -/
def StartedPr (s : AsyncScheduler) : Prop :=
  s.started = true → s.onFinishP ≠ none

/-- The promises-never-rejected invariant used for claim C9. -/
def PromOk (s : AsyncScheduler) : Prop :=
  ∀ p ∈ s.promises, ∀ e : Err, p ≠ .rejected e


/-- Per-task invariant tying the event trace to the scheduler state, used for
claim C6.  For a task id: it occupies the pending queue and the in-flight set
at most once in total; ids at or above the allocation counter are completely
untouched; it has at most one terminal (success/error) event and is out of
queue and flights once terminal; its "start" events balance its settlement
events plus its in-flight count; its "retry" events count its attempt
counter, which never exceeds the effective max retries and equals it at a
terminal error; and its `fn` invocations account for every admission except
flights admitted on an already-fired signal — each of which, once settled,
has emitted an event carrying the cancellation error. -/
structure NodeInv (s : AsyncScheduler) (id : Nat) : Prop where
  uniq : s.inQ id + s.inF id ≤ 1
  freshStore : s.nextId ≤ id → s.store id = defaultTask
  freshTasks : s.nextId ≤ id → id ∉ s.tasks
  freshQ : s.nextId ≤ id → s.inQ id = 0
  freshF : s.nextId ≤ id → s.inF id = 0
  freshStart : s.nextId ≤ id → startCt id s.trace = 0
  term_le : succCt id s.trace + errCt id s.trace ≤ 1
  term_out : 1 ≤ succCt id s.trace + errCt id s.trace → s.inQ id = 0 ∧ s.inF id = 0
  balance : startCt id s.trace
      = succCt id s.trace + retryCt id s.trace + errCt id s.trace + s.inF id
  retry_attempt : retryCt id s.trace = s.attemptOf id
  attempt_le : s.attemptOf id ≤ s.maxROf id
  err_attempt : 1 ≤ errCt id s.trace → s.attemptOf id = s.maxROf id
  fn_le : s.fnCallsOf id + s.inFAb id ≤ startCt id s.trace
  fn_ge : startCt id s.trace
      ≤ s.fnCallsOf id + s.inFAb id + cancelMarkCt id s.trace

/-- The global scheduler invariant for claim C6. -/
def SchedInv (s : AsyncScheduler) : Prop := ∀ id, NodeInv s id

/-
Theorems.  Helper lemmas first, then one theorem per claim (with its witness
or counterexample where required).
-/

open AsyncScheduler

theorem foldl_step_preserve {P : AsyncScheduler → Prop}
    (hstep : ∀ s a, P s → P (step s a)) :
    ∀ (acts : List Act) (s : AsyncScheduler), P s → P (acts.foldl step s) := by
  intro acts
  induction acts with
  | nil => intro s h; exact h
  | cons a rest ih => intro s h; exact ih (step s a) (hstep s a h)

theorem emitFinish_running (s : AsyncScheduler) :
    (emitFinish s).running = s.running := rfl

theorem emitFinish_cfg (s : AsyncScheduler) : (emitFinish s).cfg = s.cfg := rfl

theorem admitTask_running (s : AsyncScheduler) (id : Nat) (rest : List Nat) :
    (admitTask s id rest).running = s.running + 1 := by
  unfold admitTask
  dsimp only
  split <;> rfl

theorem admitTask_cfg (s : AsyncScheduler) (id : Nat) (rest : List Nat) :
    (admitTask s id rest).cfg = s.cfg := by
  unfold admitTask
  dsimp only
  split <;> rfl

theorem runNext_cfg (s : AsyncScheduler) : (runNext s).cfg = s.cfg := by
  unfold runNext
  split
  · rfl
  · split
    · rfl
    · split
      · split <;> rfl
      · exact admitTask_cfg ..

theorem runNextN_cfg (n : Nat) (s : AsyncScheduler) :
    (runNextN n s).cfg = s.cfg := by
  induction n generalizing s with
  | zero => rfl
  | succ k ih => rw [runNextN, ih, runNext_cfg]

theorem settleCont_cfg (s : AsyncScheduler) (id : Nat) (o : Outcome) :
    (settleCont s id o).cfg = s.cfg := by
  unfold settleCont
  cases o with
  | ok v => exact runNext_cfg ..
  | err e =>
    rw [runNext_cfg]
    dsimp only
    split <;> rfl

theorem step_cfg (s : AsyncScheduler) (a : Act) : (step s a).cfg = s.cfg := by
  cases a with
  | addTask p r t h =>
    show (addTask s p r t h).cfg = s.cfg
    unfold AsyncScheduler.addTask
    dsimp only
    split
    · rw [runNext_cfg]
    · rfl
  | start =>
    show (start s).cfg = s.cfg
    unfold AsyncScheduler.start
    split
    · rfl
    · split
      · rfl
      · rw [runNextN_cfg]
  | pause => rfl
  | resume =>
    show (resume s).cfg = s.cfg
    unfold AsyncScheduler.resume
    split
    · rfl
    · rw [runNextN_cfg]
  | cancelTask id =>
    show (cancelTask s id).cfg = s.cfg
    unfold AsyncScheduler.cancelTask
    split
    · split <;> rfl
    · rfl
  | abortAll =>
    show (abortAll s).cfg = s.cfg
    unfold AsyncScheduler.abortAll
    split <;> rfl
  | fireExternal id =>
    show (fireExternal s id).cfg = s.cfg
    unfold AsyncScheduler.fireExternal
    dsimp only
    split <;> rfl
  | settle id o =>
    show (step s (.settle id o)).cfg = s.cfg
    simp only [step]
    split
    · rfl
    · split
      · exact settleCont_cfg ..
      · rfl

theorem run_cfg (cfg : Config) (acts : List Act) : (run cfg acts).cfg = cfg := by
  have h : ∀ s, s.cfg = cfg → (acts.foldl step s).cfg = cfg := by
    refine foldl_step_preserve (fun s a hs => ?_) acts
    rw [step_cfg, hs]
  exact h (initScheduler cfg) rfl

theorem runNext_RLE (s : AsyncScheduler) (h : RunLE s) : RunLE (runNext s) := by
  unfold RunLE at *
  rw [runNext_cfg]
  unfold runNext
  split
  · exact h
  · rename_i hp
    split
    · exact h
    · rename_i hc
      split
      · split
        · rw [emitFinish_running]; exact h
        · exact h
      · rw [admitTask_running]; omega

theorem runNextN_RLE (n : Nat) (s : AsyncScheduler) (h : RunLE s) :
    RunLE (runNextN n s) := by
  induction n generalizing s with
  | zero => exact h
  | succ k ih => exact ih _ (runNext_RLE s h)

theorem settleCont_preRunning (s : AsyncScheduler) (id : Nat) (o : Outcome) :
    ∃ sDone : AsyncScheduler, settleCont s id o =
      runNext { sDone with running := sDone.running - 1 }
      ∧ sDone.running = s.running ∧ sDone.cfg = s.cfg := by
  unfold settleCont
  cases o with
  | ok v => exact ⟨_, rfl, rfl, rfl⟩
  | err e =>
    dsimp only
    split
    · exact ⟨_, rfl, rfl, rfl⟩
    · exact ⟨_, rfl, rfl, rfl⟩

theorem settleCont_RLE (s : AsyncScheduler) (id : Nat) (o : Outcome)
    (h : RunLE s) : RunLE (settleCont s id o) := by
  obtain ⟨sDone, heq, hrun, hcfg⟩ := settleCont_preRunning s id o
  rw [heq]
  apply runNext_RLE
  unfold RunLE at *
  show sDone.running - 1 ≤ _
  rw [hrun] at *
  rw [hcfg]
  omega

theorem step_RLE (s : AsyncScheduler) (a : Act) (h : RunLE s) : RunLE (step s a) := by
  cases a with
  | addTask p r t hx =>
    show RunLE (addTask s p r t hx)
    unfold AsyncScheduler.addTask
    dsimp only
    split
    · exact runNext_RLE _ h
    · exact h
  | start =>
    show RunLE (start s)
    unfold AsyncScheduler.start
    split
    · exact h
    · split
      · exact h
      · exact runNextN_RLE _ _ h
  | pause => exact h
  | resume =>
    show RunLE (resume s)
    unfold AsyncScheduler.resume
    split
    · exact h
    · exact runNextN_RLE _ _ h
  | cancelTask id =>
    show RunLE (cancelTask s id)
    unfold AsyncScheduler.cancelTask
    split
    · split
      · exact h
      · exact h
    · exact h
  | abortAll =>
    show RunLE (abortAll s)
    unfold AsyncScheduler.abortAll
    split
    · exact h
    · unfold RunLE
      show (0 : Int) ≤ _
      positivity
  | fireExternal id =>
    show RunLE (fireExternal s id)
    unfold AsyncScheduler.fireExternal
    dsimp only
    split <;> exact h
  | settle id o =>
    show RunLE (step s (.settle id o))
    simp only [step]
    split
    · exact h
    · split
      · exact settleCont_RLE _ _ _ h
      · exact h

/-- C1: for every scheduler constructed with concurrency limit C, after any
sequence of actions (addTask / start / pause / resume / cancelTask, as well
as abortAll, external-signal firings and task settlements), the `_running`
counter never exceeds C.  Since every reachable instant is the result of such
a sequence, the running count never exceeds the concurrency limit. -/
theorem c1_running_never_exceeds_concurrency (cfg : Config) (acts : List Act) :
    (run cfg acts).running ≤ (cfg.concurrency : Int) := by
  have h : RunLE (run cfg acts) := by
    refine foldl_step_preserve step_RLE acts (initScheduler cfg) ?_
    show (0 : Int) ≤ _
    positivity
  unfold RunLE at h
  rwa [run_cfg] at h

theorem admitTask_trace (s : AsyncScheduler) (id : Nat) (rest : List Nat) :
    (admitTask s id rest).trace = s.trace ++ [SchedEvent.start id] := by
  unfold admitTask
  dsimp only
  split <;> rfl

theorem runNext_paused (s : AsyncScheduler) (h : s.paused = true) :
    runNext s = s := by
  unfold runNext
  rw [if_pos h]

theorem runNextN_paused (n : Nat) (s : AsyncScheduler) (h : s.paused = true) :
    runNextN n s = s := by
  induction n with
  | zero => rfl
  | succ k ih => rw [runNextN, runNext_paused s h, ih]

/-- C4 counterexample: on a scheduler with concurrency 2 that was never
started, a pause() followed by a resume() emits the finish event twice —
refuting both "fires exactly once … never a second time during that run" and
"only after scheduling has begun". -/
theorem c4_finish_counterexample :
    (run ⟨2, 0, 0, false⟩ [.pause, .resume]).trace
        = [SchedEvent.finish, SchedEvent.finish]
    ∧ (run ⟨2, 0, 0, false⟩ [.pause, .resume]).started = false := by
  decide

theorem runNext_trace_cases (s : AsyncScheduler) :
    (runNext s).trace = s.trace
    ∨ (∃ id, (runNext s).trace = s.trace ++ [SchedEvent.start id])
    ∨ ((runNext s).trace = s.trace ++ [SchedEvent.finish] ∧ s.taskQuene = []
        ∧ s.running = 0 ∧ s.paused = false) := by
  unfold runNext
  split
  · left; rfl
  · rename_i hp
    split
    · left; rfl
    · split
      · rename_i hq
        split
        · rename_i hr
          right; right
          exact ⟨rfl, hq, hr, by simpa using hp⟩
        · left; rfl
      · right; left
        exact ⟨_, admitTask_trace ..⟩

/-- C4 (amended): a single admission attempt (`_runNext`) either changes no
events, emits one "start" event, or emits one "finish" event, and the finish
emission happens exactly when the scheduler is unpaused with an empty pending
queue and a running count of zero — but nothing prevents several admission
attempts of one burst from each emitting finish, nor requires that scheduling
have begun. -/
theorem c4_finish_amended (s : AsyncScheduler) :
    (runNext s).trace = s.trace
    ∨ (∃ id, (runNext s).trace = s.trace ++ [SchedEvent.start id])
    ∨ ((runNext s).trace = s.trace ++ [SchedEvent.finish] ∧ s.taskQuene = []
        ∧ s.running = 0 ∧ s.paused = false) :=
  runNext_trace_cases s

/-- C2 counterexample: scheduler with concurrency 1 and default retry 1; a
priority-5 task is admitted, a priority-7 task is added while it runs, the
scheduler is paused, and the running task fails.  The catch block unshifts
the failed task to the front of the queue, so the pending queue becomes
[task 0 (priority 5), task 1 (priority 7)] — not ordered by priority
descending, with the retried task jumped ahead of a higher-priority untried
task. -/
theorem c2_queue_order_counterexample :
    (run ⟨1, 1, 0, false⟩
      [.addTask 5 none none false, .start, .addTask 7 none none false, .pause,
       .settle 0 (.err (.exec 0))]).taskQuene = [0, 1]
    ∧ prioOf (run ⟨1, 1, 0, false⟩
      [.addTask 5 none none false, .start, .addTask 7 none none false, .pause,
       .settle 0 (.err (.exec 0))]).store 0 = 5
    ∧ prioOf (run ⟨1, 1, 0, false⟩
      [.addTask 5 none none false, .start, .addTask 7 none none false, .pause,
       .settle 0 (.err (.exec 0))]).store 1 = 7
    ∧ ¬ QueueSortedDesc (run ⟨1, 1, 0, false⟩
      [.addTask 5 none none false, .start, .addTask 7 none none false, .pause,
       .settle 0 (.err (.exec 0))]) := by
  decide

/-- C3 counterexample: concurrency 1, default retry 1; the single task is
admitted, cancelled while running, and its execution settles with the
cancellation error.  The catch block does not special-case cancellation: a
"retry" event carrying the cancellation error is emitted and the task is
requeued (and immediately re-admitted by the finally block), refuting "never
requeued or retried regardless of remaining attempts". -/
theorem c3_cancellation_counterexample :
    (run ⟨1, 1, 0, false⟩
      [.addTask 0 none none false, .start, .cancelTask 0,
       .settle 0 (.err .cancelled)]).trace
    = [SchedEvent.start 0, SchedEvent.retry 0 1 .cancelled, SchedEvent.start 0] := by
  decide

/-- C5 counterexample: after abortAll(), the paused flag is left set, so a
re-added task is never admitted by the subsequent start() — unlike a fresh
scheduler, where the same addTask + start admits and starts the task.  The
instance is therefore distinguishable from a freshly constructed one. -/
theorem c5_abortall_counterexample :
    (run ⟨1, 0, 0, false⟩
      [.addTask 0 none none false, .start, .abortAll, .addTask 0 none none false,
       .start]).paused = true
    ∧ (run ⟨1, 0, 0, false⟩
      [.addTask 0 none none false, .start, .abortAll, .addTask 0 none none false,
       .start]).taskQuene = [1]
    ∧ (run ⟨1, 0, 0, false⟩
      [.addTask 0 none none false, .start, .abortAll, .addTask 0 none none false,
       .start]).trace = [SchedEvent.start 0]
    ∧ (run ⟨1, 0, 0, false⟩ [.addTask 0 none none false, .start]).paused = false
    ∧ (run ⟨1, 0, 0, false⟩ [.addTask 0 none none false, .start]).taskQuene = []
    ∧ (run ⟨1, 0, 0, false⟩ [.addTask 0 none none false, .start]).trace
        = [SchedEvent.start 0] := by
  decide

/-- C7: the code stores an explicit add-time retry override of 0 as the same
value 0 that "no override" produces (`options?.retry ?? 0`), and the
retry-eligibility check `task.options.retry > 0 ? task.options.retry :
this._retry` then falls back to the scheduler default.  With scheduler
default retry 3 and an explicit per-task override of 0, the effective
max-retries used is 3, not 0, and a failing such task is in fact retried —
the divergence the spec itself flags in §9(b). -/
theorem c7_explicit_zero_override_ignored :
    ((run ⟨1, 3, 0, false⟩ [.addTask 0 (some 0) none false]).store 0).retryOpt = 0
    ∧ effMaxRetries 3 ((run ⟨1, 3, 0, false⟩
        [.addTask 0 (some 0) none false]).store 0) = 3
    ∧ SchedEvent.retry 0 1 (.exec 0) ∈ (run ⟨1, 3, 0, false⟩
        [.addTask 0 (some 0) none false, .start, .settle 0 (.err (.exec 0))]).trace := by
  decide

/-- C8 counterexample: an emission whose first registered handler throws
invokes only that one handler (the second never runs) and the exception
propagates out of `_emit` — refuting "subsequent handlers for that emission
still run" and "the exception does not propagate into the dispatcher's
control flow". -/
theorem c8_handler_throw_counterexample :
    emitRun [HRes.fail 7, HRes.ok] = (1, some 7)
    ∧ emitRun [HRes.fail 7, HRes.ok] ≠ (2, none) := by
  decide

/-- C8 (amended): a throwing handler terminates the `forEach` iteration (the
handlers after it are never invoked) and its exception propagates out of
`_emit` into the dispatcher.  In the admission segment of `_runNext` the
work is invoked, the finally block runs (releasing the slot — the running
count returns to its pre-admission value — and re-attempting admission)
exactly when the "start" emission does not throw, and under a throw-free
"start" emission a throwing success handler sends the task down the failure
path of the catch block; but a throwing "start" handler — emitted after
`this._running++` and before the `try` block — skips the finally entirely:
the running count stays permanently incremented, no re-admission is
attempted, and the task's work is never invoked. -/
theorem c8_handler_throw_amended (e : Nat) (hs : List HRes) (running : Int)
    (ok : Bool) (sth sh fh : List HRes) :
    emitRun (HRes.fail e :: hs) = (1, some e)
    ∧ (runNextAdmitSeg running sth ok sh fh).fnInvoked = (emitEff sth).isNone
    ∧ (runNextAdmitSeg running sth ok sh fh).finallyRan = (emitEff sth).isNone
    ∧ (runNextAdmitSeg running sth ok sh fh).finallyAdmit = (emitEff sth).isNone
    ∧ (runNextAdmitSeg running sth ok sh fh).running'
        = (if (emitEff sth).isNone then running else running + 1)
    ∧ (runNextAdmitSeg running [] true (HRes.fail e :: hs) fh).tookFailurePath
        = true
    ∧ runNextAdmitSeg running (HRes.fail e :: hs) ok sh fh
        = { running' := running + 1, fnInvoked := false, finallyRan := false,
            finallyAdmit := false, tookFailurePath := false,
            escaped := some e } := by
  have hseg : ∀ r, (runNextSettleSeg r ok sh fh).running' = r - 1
      ∧ (runNextSettleSeg r ok sh fh).finallyAdmit = true := by
    intro r
    unfold runNextSettleSeg
    split
    · split <;> exact ⟨rfl, rfl⟩
    · exact ⟨rfl, rfl⟩
  refine ⟨rfl, ?_, ?_, ?_, ?_, ?_, ?_⟩
  · unfold runNextAdmitSeg
    cases hE : emitEff sth <;> simp [hE]
  · unfold runNextAdmitSeg
    cases hE : emitEff sth <;> simp [hE]
  · unfold runNextAdmitSeg
    cases hE : emitEff sth <;> simp [hE, (hseg (running + 1)).2]
  · unfold runNextAdmitSeg
    cases hE : emitEff sth <;> simp [hE, (hseg (running + 1)).1]
  · rfl
  · unfold runNextAdmitSeg
    have hE : emitEff (HRes.fail e :: hs) = some e := rfl
    rw [hE]

theorem admitTask_taskQuene (s : AsyncScheduler) (id : Nat) (rest : List Nat) :
    (admitTask s id rest).taskQuene = rest := by
  unfold admitTask
  dsimp only
  split <;> rfl

theorem admitTask_prioOf (s : AsyncScheduler) (id : Nat) (rest : List Nat)
    (j : Nat) : prioOf (admitTask s id rest).store j = prioOf s.store j := by
  unfold admitTask
  dsimp only
  split
  · rfl
  · unfold prioOf setTask getTask emitEv
    dsimp only
    by_cases hj : j = id
    · subst hj
      simp
    · simp [hj]

theorem runNext_QueueSorted (s : AsyncScheduler) (h : QueueSortedDesc s) :
    QueueSortedDesc (runNext s) := by
  unfold runNext
  split
  · exact h
  · split
    · exact h
    · split
      · split
        · exact h
        · exact h
      · rename_i id rest hq
        unfold QueueSortedDesc at *
        rw [hq] at h
        have h2 := h.of_cons
        show List.Sorted (quenRel (admitTask s id rest).store) (admitTask s id rest).taskQuene
        rw [admitTask_taskQuene]
        refine List.Pairwise.imp ?_ h2
        intro a b hab
        show prioOf _ b ≤ prioOf _ a
        rw [admitTask_prioOf, admitTask_prioOf]
        exact hab

theorem step_settle_eq (s : AsyncScheduler) (id : Nat) (o : Outcome) (f : Flight)
    (rest : List Flight) (hx : extractFlight s.inFlight id = some (f, rest))
    (ha : allowedOutcome s (s.getTask id) f o = true) :
    step s (.settle id o) = settleCont { s with inFlight := rest } id o := by
  simp only [step, hx, ha, if_true]

theorem settleCont_err_retry_proj (s : AsyncScheduler) (id : Nat) (e : Err)
    (hp : s.paused = true)
    (hlt : (s.getTask id).attempt < effMaxRetries s.cfg.retry (s.getTask id)) :
    (settleCont s id (.err e)).trace
        = s.trace ++ [SchedEvent.retry id ((s.getTask id).attempt + 1) e]
    ∧ (settleCont s id (.err e)).taskQuene = id :: s.taskQuene := by
  unfold settleCont
  dsimp only
  rw [if_pos hlt, runNext_paused]
  · exact ⟨rfl, rfl⟩
  · exact hp

theorem settleCont_err_terminal_proj (s : AsyncScheduler) (id : Nat) (e : Err)
    (hp : s.paused = true)
    (hge : ¬ (s.getTask id).attempt < effMaxRetries s.cfg.retry (s.getTask id)) :
    (settleCont s id (.err e)).trace = s.trace ++ [SchedEvent.error id e]
    ∧ (settleCont s id (.err e)).taskQuene = s.taskQuene := by
  unfold settleCont
  dsimp only
  rw [if_neg hge, runNext_paused]
  · exact ⟨rfl, rfl⟩
  · exact hp

/-- C2 (amended): after every addTask the pending queue is ordered by
priority descending (push followed by a stable sort, which also keeps
equal-priority entries in insertion order); but a retry-triggered requeue
prepends the retried task to the front of the queue (`unshift`), ahead of
every pending task regardless of priority, which can leave the queue
unsorted and puts the retried task ahead of same-priority untried tasks. -/
theorem c2_queue_order_amended :
    (∀ (s : AsyncScheduler) (p : Int) (rO tO : Option Nat) (hE : Bool),
        QueueSortedDesc (step s (.addTask p rO tO hE)))
    ∧ (∀ (s : AsyncScheduler) (id : Nat) (f : Flight) (rest : List Flight) (e : Err),
        s.paused = true →
        extractFlight s.inFlight id = some (f, rest) →
        allowedOutcome s (s.getTask id) f (.err e) = true →
        (s.getTask id).attempt < effMaxRetries s.cfg.retry (s.getTask id) →
        (step s (.settle id (.err e))).taskQuene = id :: s.taskQuene) := by
  constructor
  · intro s p rO tO hE
    show QueueSortedDesc (addTask s p rO tO hE)
    unfold AsyncScheduler.addTask
    dsimp only
    split
    · exact runNext_QueueSorted _ (List.sorted_insertionSort _ _)
    · exact List.sorted_insertionSort _ _
  · intro s id f rest e hp hx ha hlt
    rw [step_settle_eq s id _ f rest hx ha]
    exact (settleCont_err_retry_proj { s with inFlight := rest } id e hp hlt).2

theorem c2_queue_order_amended_witness :
    QueueSortedDesc (step (run ⟨1, 1, 0, false⟩ [.addTask 5 none none false])
        (.addTask 7 none none false))
    ∧ (step (run ⟨1, 1, 0, false⟩
        [.addTask 5 none none false, .start, .addTask 7 none none false, .pause])
        (.settle 0 (.err (.exec 0)))).taskQuene
      = 0 :: (run ⟨1, 1, 0, false⟩
        [.addTask 5 none none false, .start, .addTask 7 none none false, .pause]).taskQuene :=
  ⟨c2_queue_order_amended.1 _ 7 none none false,
   c2_queue_order_amended.2 _ 0 ⟨0, true⟩ [] (.exec 0)
     (by decide) (by decide) (by decide) (by decide)⟩

/-- C3 (amended): a failure caused by the cancellation token flows through
the same retry logic as any other failure — while the attempt counter is
below the effective max retries the task is requeued and a "retry" event
carrying the cancellation error is emitted; only once attempts are exhausted
is the terminal "error" event carrying the cancellation error emitted, with
no requeue.  (Stated on a paused scheduler so that the finally block's
admission attempt is inert and the settlement's own effect is visible.) -/
theorem c3_cancellation_amended (s : AsyncScheduler) (id : Nat) (f : Flight)
    (rest : List Flight) (hp : s.paused = true)
    (hx : extractFlight s.inFlight id = some (f, rest))
    (ha : allowedOutcome s (s.getTask id) f (.err .cancelled) = true) :
    ((s.getTask id).attempt < effMaxRetries s.cfg.retry (s.getTask id) →
      (step s (.settle id (.err .cancelled))).trace
          = s.trace ++ [SchedEvent.retry id ((s.getTask id).attempt + 1) .cancelled]
      ∧ (step s (.settle id (.err .cancelled))).taskQuene = id :: s.taskQuene)
    ∧ (effMaxRetries s.cfg.retry (s.getTask id) ≤ (s.getTask id).attempt →
      (step s (.settle id (.err .cancelled))).trace
          = s.trace ++ [SchedEvent.error id .cancelled]
      ∧ (step s (.settle id (.err .cancelled))).taskQuene = s.taskQuene) := by
  rw [step_settle_eq s id _ f rest hx ha]
  constructor
  · intro hlt
    exact settleCont_err_retry_proj { s with inFlight := rest } id _ hp hlt
  · intro hge
    exact settleCont_err_terminal_proj { s with inFlight := rest } id _ hp
      (by exact Nat.not_lt.mpr hge)

theorem c3_cancellation_amended_witness :
    (step (run ⟨1, 0, 0, false⟩
        [.addTask 0 none none false, .start, .cancelTask 0, .pause])
        (.settle 0 (.err .cancelled))).trace
      = (run ⟨1, 0, 0, false⟩
        [.addTask 0 none none false, .start, .cancelTask 0, .pause]).trace
        ++ [SchedEvent.error 0 .cancelled]
    ∧ (step (run ⟨1, 0, 0, false⟩
        [.addTask 0 none none false, .start, .cancelTask 0, .pause])
        (.settle 0 (.err .cancelled))).taskQuene
      = (run ⟨1, 0, 0, false⟩
        [.addTask 0 none none false, .start, .cancelTask 0, .pause]).taskQuene :=
  (c3_cancellation_amended _ 0 ⟨0, true⟩ [] (by decide) (by decide) (by decide)).2
    (by decide)

/-- C5 (amended): abortAll() on a started scheduler discards the pending
queue, clears the registry, resets the running counter and the started flag,
and replaces the global cancellation source — but it leaves the paused flag
set (and the completed flag, results, promises and trace untouched), so it is
distinguishable from a freshly constructed scheduler: a subsequent start()
call on the still-paused instance admits nothing, emits nothing, and leaves
re-added tasks sitting in the queue until resume() is called. -/
theorem c5_abortall_amended :
    (∀ s : AsyncScheduler, s.started = true →
        step s .abortAll =
          { s with paused := true, taskQuene := [],
                   globalGen := s.globalGen + 1, tasks := [], running := 0,
                   started := false })
    ∧ (∀ s : AsyncScheduler, s.paused = true →
        (step s .start).taskQuene = s.taskQuene
        ∧ (step s .start).trace = s.trace
        ∧ (step s .start).running = s.running
        ∧ (step s .start).paused = true) := by
  constructor
  · intro s hs
    show abortAll s = _
    unfold AsyncScheduler.abortAll
    simp [hs]
  · intro s hp
    show (start s).taskQuene = s.taskQuene ∧ (start s).trace = s.trace
        ∧ (start s).running = s.running ∧ (start s).paused = true
    unfold AsyncScheduler.start
    split
    · exact ⟨rfl, rfl, rfl, hp⟩
    · split
      · exact ⟨rfl, rfl, rfl, hp⟩
      · dsimp only
        rw [runNextN_paused]
        · exact ⟨rfl, rfl, rfl, hp⟩
        · exact hp

theorem c5_abortall_amended_witness :
    step (run ⟨1, 0, 0, false⟩ [.addTask 0 none none false, .start]) .abortAll
      = { run ⟨1, 0, 0, false⟩ [.addTask 0 none none false, .start] with
          paused := true, taskQuene := [],
          globalGen := (run ⟨1, 0, 0, false⟩
              [.addTask 0 none none false, .start]).globalGen + 1,
          tasks := [], running := 0, started := false }
    ∧ (step (run ⟨1, 0, 0, false⟩
        [.addTask 0 none none false, .start, .abortAll]) .start).taskQuene
      = (run ⟨1, 0, 0, false⟩
        [.addTask 0 none none false, .start, .abortAll]).taskQuene :=
  ⟨c5_abortall_amended.1 _ (by decide),
   (c5_abortall_amended.2 _ (by decide)).1⟩

theorem extractFlight_append_not_mem (l : List Flight) (g : Flight)
    (h : ∀ f ∈ l, f.id ≠ g.id) : extractFlight (l ++ [g]) g.id = some (g, l) := by
  induction l with
  | nil => simp [extractFlight]
  | cons f fs ih =>
    have hf : ¬ f.id = g.id := h f (by simp)
    rw [List.cons_append]
    unfold extractFlight
    rw [if_neg hf, ih (fun x hx => h x (List.mem_cons_of_mem f hx))]

theorem countP_appendSingleton {α : Type} (p : α → Bool) (tr : List α)
    (e : α) :
    (tr ++ [e]).countP p = tr.countP p + if p e then 1 else 0 := by
  rw [List.countP_append]
  simp [List.countP_cons]

theorem runNext_cancelMarkCt (s : AsyncScheduler) (id : Nat) :
    cancelMarkCt id (runNext s).trace = cancelMarkCt id s.trace := by
  unfold cancelMarkCt
  rcases runNext_trace_cases s with h | ⟨j, h⟩ | ⟨h, _, _, _⟩ <;>
    rw [h] <;> simp [countP_appendSingleton, isCancelMark]

/-- C10: a task whose composed cancellation signal has already fired when the
dispatcher admits it never has its work callable invoked: `_executeTask`
returns an already-rejected "Task Cancelled" promise, so the only settlement
the flight can deliver is the cancellation error, and that settlement flows
through the normal failure path (it appends exactly one retry-or-error event
carrying the cancellation error). -/
theorem c10_preaborted_never_invokes_fn (s : AsyncScheduler) (id : Nat)
    (rest : List Nat)
    (hp : s.paused = false)
    (hr : s.running < (s.cfg.concurrency : Int))
    (hq : s.taskQuene = id :: rest)
    (hab : composedFired s (s.getTask id) = true)
    (hnf : ∀ f ∈ s.inFlight, f.id ≠ id) :
    fnCallsOf (runNext s) id = fnCallsOf s id
    ∧ (runNext s).inFlight = s.inFlight ++ [⟨id, false⟩]
    ∧ (∀ o : Outcome, o ≠ .err .cancelled →
        step (runNext s) (.settle id o) = runNext s)
    ∧ cancelMarkCt id (step (runNext s) (.settle id (.err .cancelled))).trace
        = cancelMarkCt id (runNext s).trace + 1 := by
  have h1 : ¬ (s.paused = true) := by simp [hp]
  have h2 : ¬ ((s.cfg.concurrency : Int) ≤ s.running) := not_le.mpr hr
  have hrn : runNext s =
      { s with taskQuene := rest, running := s.running + 1,
               trace := s.trace ++ [SchedEvent.start id],
               inFlight := s.inFlight ++ [⟨id, false⟩] } := by
    unfold runNext
    rw [if_neg h1, if_neg h2, hq]
    unfold admitTask
    dsimp only
    rw [if_pos (by exact hab)]
    rfl
  rw [hrn]
  have hx : extractFlight (s.inFlight ++ [⟨id, false⟩]) id
      = some (⟨id, false⟩, s.inFlight) :=
    extractFlight_append_not_mem s.inFlight ⟨id, false⟩ (by exact hnf)
  refine ⟨rfl, rfl, ?_, ?_⟩
  · intro o ho
    simp only [step, hx]
    rw [if_neg]
    simp only [allowedOutcome, Bool.false_eq_true, if_false,
      decide_eq_true_eq]
    exact ho
  · simp only [step, hx]
    rw [if_pos (by simp [allowedOutcome])]
    unfold settleCont
    dsimp only
    split
    all_goals
      rw [runNext_cancelMarkCt]
      simp [cancelMarkCt, AsyncScheduler.emitEv, AsyncScheduler.setTask,
        countP_appendSingleton, isCancelMark]

theorem c10_preaborted_never_invokes_fn_witness :
    fnCallsOf (runNext (run ⟨1, 1, 0, false⟩
        [.addTask 0 none none true, .fireExternal 0])) 0
      = fnCallsOf (run ⟨1, 1, 0, false⟩
        [.addTask 0 none none true, .fireExternal 0]) 0
    ∧ step (runNext (run ⟨1, 1, 0, false⟩
        [.addTask 0 none none true, .fireExternal 0])) (.settle 0 (.ok 5))
      = runNext (run ⟨1, 1, 0, false⟩ [.addTask 0 none none true, .fireExternal 0])
    ∧ cancelMarkCt 0 (step (runNext (run ⟨1, 1, 0, false⟩
        [.addTask 0 none none true, .fireExternal 0]))
        (.settle 0 (.err .cancelled))).trace
      = cancelMarkCt 0 (runNext (run ⟨1, 1, 0, false⟩
        [.addTask 0 none none true, .fireExternal 0])).trace + 1 := by
  have h := c10_preaborted_never_invokes_fn
    (run ⟨1, 1, 0, false⟩ [.addTask 0 none none true, .fireExternal 0]) 0 []
    (by decide) (by decide) (by decide) (by decide) (by decide)
  exact ⟨h.1, h.2.2.1 (.ok 5) (by decide), h.2.2.2⟩

theorem runNext_frame (s : AsyncScheduler) :
    (runNext s).asyncResults = s.asyncResults
    ∧ (runNext s).onFinishP = s.onFinishP
    ∧ (runNext s).started = s.started := by
  unfold runNext
  split
  · exact ⟨rfl, rfl, rfl⟩
  · split
    · exact ⟨rfl, rfl, rfl⟩
    · split
      · split <;> exact ⟨rfl, rfl, rfl⟩
      · unfold admitTask
        dsimp only
        split <;> exact ⟨rfl, rfl, rfl⟩

theorem runNextN_frame (n : Nat) (s : AsyncScheduler) :
    (runNextN n s).asyncResults = s.asyncResults
    ∧ (runNextN n s).onFinishP = s.onFinishP
    ∧ (runNextN n s).started = s.started := by
  induction n generalizing s with
  | zero => exact ⟨rfl, rfl, rfl⟩
  | succ k ih =>
    rw [runNextN]
    obtain ⟨h1, h2, h3⟩ := ih (runNext s)
    obtain ⟨g1, g2, g3⟩ := runNext_frame s
    exact ⟨h1.trans g1, h2.trans g2, h3.trans g3⟩

theorem settleCont_frame (s : AsyncScheduler) (id : Nat) (o : Outcome) :
    (settleCont s id o).onFinishP = s.onFinishP
    ∧ (settleCont s id o).started = s.started := by
  unfold settleCont
  cases o with
  | ok v => exact ⟨(runNext_frame _).2.1, (runNext_frame _).2.2⟩
  | err e =>
    dsimp only
    split <;> exact ⟨(runNext_frame _).2.1, (runNext_frame _).2.2⟩

theorem step_onFinishP_of_started (s : AsyncScheduler) (a : Act)
    (h1 : s.started = true) : (step s a).onFinishP = s.onFinishP := by
  cases a with
  | addTask p r t hx =>
    show (addTask s p r t hx).onFinishP = s.onFinishP
    unfold AsyncScheduler.addTask
    dsimp only
    split
    · exact (runNext_frame _).2.1
    · rfl
  | start =>
    show (start s).onFinishP = s.onFinishP
    unfold AsyncScheduler.start
    simp [h1]
  | pause => rfl
  | resume =>
    show (resume s).onFinishP = s.onFinishP
    unfold AsyncScheduler.resume
    split
    · rfl
    · exact (runNextN_frame _ _).2.1
  | cancelTask id =>
    show (cancelTask s id).onFinishP = s.onFinishP
    unfold AsyncScheduler.cancelTask
    split
    · split <;> rfl
    · rfl
  | abortAll =>
    show (abortAll s).onFinishP = s.onFinishP
    unfold AsyncScheduler.abortAll
    split <;> rfl
  | fireExternal id =>
    show (fireExternal s id).onFinishP = s.onFinishP
    unfold AsyncScheduler.fireExternal
    dsimp only
    split <;> rfl
  | settle id o =>
    show (step s (.settle id o)).onFinishP = s.onFinishP
    simp only [step]
    split
    · rfl
    · split
      · exact (settleCont_frame _ _ _).1
      · rfl

theorem step_StartedPr (s : AsyncScheduler) (a : Act) (h : StartedPr s) :
    StartedPr (step s a) := by
  cases a with
  | addTask p r t hx =>
    show StartedPr (addTask s p r t hx)
    unfold AsyncScheduler.addTask
    dsimp only
    split
    · intro hst
      rw [(runNext_frame _).2.1]
      rw [(runNext_frame _).2.2] at hst
      exact h hst
    · exact h
  | start =>
    show StartedPr (start s)
    unfold AsyncScheduler.start
    split
    · exact h
    · split
      · exact h
      · intro _
        rw [(runNextN_frame _ _).2.1]
        simp
  | pause => exact h
  | resume =>
    show StartedPr (resume s)
    unfold AsyncScheduler.resume
    split
    · exact h
    · intro hst
      rw [(runNextN_frame _ _).2.1]
      rw [(runNextN_frame _ _).2.2] at hst
      exact h hst
  | cancelTask id =>
    show StartedPr (cancelTask s id)
    unfold AsyncScheduler.cancelTask
    split
    · split
      · exact h
      · exact h
    · exact h
  | abortAll =>
    show StartedPr (abortAll s)
    unfold AsyncScheduler.abortAll
    split
    · exact h
    · intro hst
      exact absurd hst (by simp)
  | fireExternal id =>
    show StartedPr (fireExternal s id)
    unfold AsyncScheduler.fireExternal
    dsimp only
    split
    · exact h
    · exact h
  | settle id o =>
    show StartedPr (step s (.settle id o))
    simp only [step]
    split
    · exact h
    · split
      · intro hst
        rw [(settleCont_frame _ _ _).1]
        rw [(settleCont_frame _ _ _).2] at hst
        exact h hst
      · exact h

theorem run_StartedPr (cfg : Config) (acts : List Act) :
    StartedPr (run cfg acts) := by
  refine foldl_step_preserve step_StartedPr acts (initScheduler cfg) ?_
  intro h
  exact absurd h (by simp [initScheduler])

theorem mem_of_getElem?_list {α : Type} (l : List α) (j : Nat) (a : α)
    (h : l[j]? = some a) : a ∈ l := by
  obtain ⟨hlt, he⟩ := List.getElem?_eq_some.mp h
  exact he ▸ List.getElem_mem hlt

theorem resolveP_getElem (ps : List PromiseSt) (i : Nat) (vs : List Nat)
    (j : Nat) (pv : PromiseSt) (h : ps[j]? = some pv) :
    (resolveP ps i vs)[j]? = some pv
    ∨ (pv = .unresolved ∧ (resolveP ps i vs)[j]? = some (.resolvedOk vs)) := by
  unfold resolveP
  split
  · rename_i hps
    by_cases hij : j = i
    · subst hij
      rw [h] at hps
      right
      have hlt : j < ps.length := (List.getElem?_eq_some.mp h).1
      exact ⟨Option.some.inj hps, List.getElem?_set_eq_of_lt _ hlt⟩
    · left
      rw [List.getElem?_set_ne (fun hh => hij hh.symm)]
      exact h
  · left
    exact h

theorem foldl_resolveP_getElem (idxs : List Nat) (ps : List PromiseSt)
    (vs : List Nat) (j : Nat) (pv : PromiseSt) (h : ps[j]? = some pv) :
    (idxs.foldl (fun acc i => resolveP acc i vs) ps)[j]? = some pv
    ∨ (pv = .unresolved
        ∧ (idxs.foldl (fun acc i => resolveP acc i vs) ps)[j]?
            = some (.resolvedOk vs)) := by
  induction idxs generalizing ps pv with
  | nil => left; exact h
  | cons i rest ih =>
    rw [List.foldl_cons]
    rcases resolveP_getElem ps i vs j pv h with h1 | ⟨hpv, h1⟩
    · exact ih _ _ h1
    · rcases ih _ _ h1 with h2 | ⟨_, h2⟩
      · right; exact ⟨hpv, h2⟩
      · right; exact ⟨hpv, h2⟩

theorem emitFinish_getElem (s : AsyncScheduler) (j : Nat) (pv : PromiseSt)
    (h : s.promises[j]? = some pv) :
    (emitFinish s).promises[j]? = some pv
    ∨ (pv = .unresolved
        ∧ (emitFinish s).promises[j]? = some (.resolvedOk s.asyncResults)) :=
  foldl_resolveP_getElem (emitEv s .finish).finishListeners s.promises
    s.asyncResults j pv h

theorem emitFinish_finishCt (s : AsyncScheduler) :
    finishCt (emitFinish s).trace = finishCt s.trace + 1 := by
  show finishCt (s.trace ++ [SchedEvent.finish]) = finishCt s.trace + 1
  unfold finishCt
  rw [countP_appendSingleton]
  simp [isFinishEv]

theorem admitTask_promises (s : AsyncScheduler) (id : Nat) (rest : List Nat) :
    (admitTask s id rest).promises = s.promises := by
  unfold admitTask
  dsimp only
  split <;> rfl

theorem runNext_getElem (s : AsyncScheduler) (j : Nat) (pv : PromiseSt)
    (h : s.promises[j]? = some pv) :
    (runNext s).promises[j]? = some pv
    ∨ (pv = .unresolved
        ∧ (runNext s).promises[j]? = some (.resolvedOk (runNext s).asyncResults)
        ∧ finishCt s.trace < finishCt (runNext s).trace) := by
  unfold runNext
  split
  · left; exact h
  · split
    · left; exact h
    · split
      · split
        · rcases emitFinish_getElem s j pv h with h1 | ⟨hpv, h1⟩
          · left; exact h1
          · right
            refine ⟨hpv, h1, ?_⟩
            rw [emitFinish_finishCt]
            omega
        · left; exact h
      · left
        rw [admitTask_promises]
        exact h

theorem runNext_finishCt_mono (s : AsyncScheduler) :
    finishCt s.trace ≤ finishCt (runNext s).trace := by
  rcases runNext_trace_cases s with hh | ⟨jj, hh⟩ | ⟨hh, _, _, _⟩ <;>
    rw [hh] <;> simp [finishCt, countP_appendSingleton]

theorem runNextN_finishCt_mono (n : Nat) (s : AsyncScheduler) :
    finishCt s.trace ≤ finishCt (runNextN n s).trace := by
  induction n generalizing s with
  | zero => exact le_refl _
  | succ k ih =>
    rw [runNextN]
    exact (runNext_finishCt_mono s).trans (ih (runNext s))

theorem runNextN_getElem (n : Nat) (s : AsyncScheduler) (j : Nat)
    (pv : PromiseSt) (h : s.promises[j]? = some pv) :
    (runNextN n s).promises[j]? = some pv
    ∨ (pv = .unresolved
        ∧ (runNextN n s).promises[j]?
            = some (.resolvedOk (runNextN n s).asyncResults)
        ∧ finishCt s.trace < finishCt (runNextN n s).trace) := by
  induction n generalizing s pv with
  | zero => left; exact h
  | succ k ih =>
    rw [runNextN]
    rcases runNext_getElem s j pv h with h1 | ⟨hpv, h1, h2⟩
    · rcases ih (runNext s) pv h1 with h3 | ⟨hpv3, h3, h4⟩
      · left; exact h3
      · right
        exact ⟨hpv3, h3, lt_of_le_of_lt (runNext_finishCt_mono s) h4⟩
    · rcases ih (runNext s) _ h1 with h3 | ⟨hbad, _, _⟩
      · right
        refine ⟨hpv, ?_, ?_⟩
        · rw [h3, (runNextN_frame k (runNext s)).1]
        · exact lt_of_lt_of_le h2 (runNextN_finishCt_mono k (runNext s))
      · exact absurd hbad (by simp)

theorem runNext_after_getElem (w : AsyncScheduler) (j : Nat) (pv : PromiseSt)
    (tr : List SchedEvent) (hw : w.promises[j]? = some pv)
    (ht : finishCt w.trace = finishCt tr) :
    (runNext w).promises[j]? = some pv
    ∨ (pv = .unresolved
        ∧ (runNext w).promises[j]? = some (.resolvedOk (runNext w).asyncResults)
        ∧ finishCt tr < finishCt (runNext w).trace) := by
  rcases runNext_getElem w j pv hw with h1 | ⟨hpv, h1, h2⟩
  · left; exact h1
  · right
    refine ⟨hpv, h1, ?_⟩
    rw [← ht]
    exact h2

theorem settleCont_getElem (s : AsyncScheduler) (id : Nat) (o : Outcome)
    (j : Nat) (pv : PromiseSt) (h : s.promises[j]? = some pv) :
    (settleCont s id o).promises[j]? = some pv
    ∨ (pv = .unresolved
        ∧ (settleCont s id o).promises[j]?
            = some (.resolvedOk (settleCont s id o).asyncResults)
        ∧ finishCt s.trace < finishCt (settleCont s id o).trace) := by
  unfold settleCont
  cases o with
  | ok v =>
    refine runNext_after_getElem _ j pv s.trace ?_ ?_
    · exact h
    · show finishCt (s.trace ++ [SchedEvent.success id v]) = finishCt s.trace
      unfold finishCt
      rw [countP_appendSingleton]
      simp [isFinishEv]
  | err e =>
    dsimp only
    split
    · refine runNext_after_getElem _ j pv s.trace ?_ ?_
      · exact h
      · show finishCt (s.trace ++ [SchedEvent.retry id ((s.getTask id).attempt + 1) e])
            = finishCt s.trace
        unfold finishCt
        rw [countP_appendSingleton]
        simp [isFinishEv]
    · refine runNext_after_getElem _ j pv s.trace ?_ ?_
      · exact h
      · show finishCt (s.trace ++ [SchedEvent.error id e]) = finishCt s.trace
        unfold finishCt
        rw [countP_appendSingleton]
        simp [isFinishEv]

theorem step_getElem (s : AsyncScheduler) (a : Act) (j : Nat) (pv : PromiseSt)
    (h : s.promises[j]? = some pv) :
    (step s a).promises[j]? = some pv
    ∨ (pv = .unresolved
        ∧ (step s a).promises[j]? = some (.resolvedOk (step s a).asyncResults)
        ∧ finishCt s.trace < finishCt (step s a).trace) := by
  cases a with
  | addTask p r t hx =>
    simp only [step]
    unfold AsyncScheduler.addTask
    dsimp only
    split
    · refine runNext_after_getElem _ j pv s.trace ?_ ?_
      · exact h
      · rfl
    · left; exact h
  | start =>
    simp only [step]
    unfold AsyncScheduler.start
    split
    · left; exact h
    · split
      · left; exact h
      · dsimp only
        have hlt : j < s.promises.length := (List.getElem?_eq_some.mp h).1
        have h2 : (s.promises ++ [PromiseSt.unresolved])[j]? = some pv := by
          rw [List.getElem?_append_left hlt]
          exact h
        apply runNextN_getElem
        exact h2
  | pause => left; exact h
  | resume =>
    simp only [step]
    unfold AsyncScheduler.resume
    split
    · left; exact h
    · apply runNextN_getElem
      exact h
  | cancelTask id =>
    simp only [step]
    unfold AsyncScheduler.cancelTask
    split
    · split
      · left; exact h
      · left; exact h
    · left; exact h
  | abortAll =>
    simp only [step]
    unfold AsyncScheduler.abortAll
    split
    · left; exact h
    · left; exact h
  | fireExternal id =>
    simp only [step]
    unfold AsyncScheduler.fireExternal
    dsimp only
    split
    · left; exact h
    · left; exact h
  | settle id o =>
    simp only [step]
    split
    · left; exact h
    · split
      · apply settleCont_getElem
        exact h
      · left; exact h

theorem resolveP_mem (ps : List PromiseSt) (i : Nat) (vs : List Nat)
    (p : PromiseSt) (h : p ∈ resolveP ps i vs) :
    p ∈ ps ∨ p = .resolvedOk vs := by
  unfold resolveP at h
  split at h
  · rcases List.mem_or_eq_of_mem_set h with h1 | h1
    · left; exact h1
    · right; exact h1
  · left; exact h

theorem foldl_resolveP_mem (idxs : List Nat) (ps : List PromiseSt)
    (vs : List Nat) (p : PromiseSt)
    (h : p ∈ idxs.foldl (fun acc i => resolveP acc i vs) ps) :
    p ∈ ps ∨ p = .resolvedOk vs := by
  induction idxs generalizing ps with
  | nil => left; exact h
  | cons i rest ih =>
    rw [List.foldl_cons] at h
    rcases ih _ h with h1 | h1
    · exact resolveP_mem ps i vs p h1
    · right; exact h1

theorem emitFinish_PromOk (s : AsyncScheduler) (h : PromOk s) :
    PromOk (emitFinish s) := by
  intro p hp e
  rcases foldl_resolveP_mem _ _ _ p hp with h1 | h1
  · exact h p h1 e
  · rw [h1]; simp

theorem runNext_PromOk (s : AsyncScheduler) (h : PromOk s) :
    PromOk (runNext s) := by
  unfold runNext
  split
  · exact h
  · split
    · exact h
    · split
      · split
        · exact emitFinish_PromOk s h
        · exact h
      · intro p hp e
        rw [admitTask_promises] at hp
        exact h p hp e

theorem runNextN_PromOk (n : Nat) (s : AsyncScheduler) (h : PromOk s) :
    PromOk (runNextN n s) := by
  induction n generalizing s with
  | zero => exact h
  | succ k ih => exact ih _ (runNext_PromOk s h)

theorem settleCont_PromOk (s : AsyncScheduler) (id : Nat) (o : Outcome)
    (h : PromOk s) : PromOk (settleCont s id o) := by
  unfold settleCont
  cases o with
  | ok v => exact runNext_PromOk _ h
  | err e =>
    dsimp only
    split <;> exact runNext_PromOk _ h

theorem step_PromOk (s : AsyncScheduler) (a : Act) (h : PromOk s) :
    PromOk (step s a) := by
  cases a with
  | addTask p r t hx =>
    show PromOk (addTask s p r t hx)
    unfold AsyncScheduler.addTask
    dsimp only
    split
    · exact runNext_PromOk _ h
    · exact h
  | start =>
    show PromOk (start s)
    unfold AsyncScheduler.start
    split
    · exact h
    · split
      · exact h
      · dsimp only
        refine runNextN_PromOk _ _ ?_
        intro p hp e
        rcases List.mem_append.mp hp with h1 | h1
        · exact h p h1 e
        · rw [List.mem_singleton.mp h1]; simp
  | pause => exact h
  | resume =>
    show PromOk (resume s)
    unfold AsyncScheduler.resume
    split
    · exact h
    · exact runNextN_PromOk _ _ h
  | cancelTask id =>
    show PromOk (cancelTask s id)
    unfold AsyncScheduler.cancelTask
    split
    · split
      · exact h
      · exact h
    · exact h
  | abortAll =>
    show PromOk (abortAll s)
    unfold AsyncScheduler.abortAll
    split
    · exact h
    · exact h
  | fireExternal id =>
    show PromOk (fireExternal s id)
    unfold AsyncScheduler.fireExternal
    dsimp only
    split
    · exact h
    · exact h
  | settle id o =>
    show PromOk (step s (.settle id o))
    simp only [step]
    split
    · exact h
    · split
      · exact settleCont_PromOk _ _ _ h
      · exact h

theorem run_PromOk (cfg : Config) (acts : List Act) : PromOk (run cfg acts) := by
  refine foldl_step_preserve step_PromOk acts (initScheduler cfg) ?_
  intro p hp e
  simp [initScheduler] at hp

/-- C9: the completion future contract of start().  For any reachable state:
(1) a start() call made while started and not completed returns the stored
pending promise (the one the first call created, since (2) no step while
started ever changes the stored promise reference); (3) no promise is ever
rejected — per-task terminal failures never reject the completion future;
(4) a pending completion promise becomes resolved only at a step that emits
finish, and it resolves with that step's accumulated asyncResults; and (5) a
resolved promise never changes again, so it settles exactly once. -/
theorem c9_completion_future (cfg : Config) (acts : List Act) :
    ((run cfg acts).started = true → (run cfg acts).completed = false →
        startReturn (run cfg acts) = .pending (run cfg acts).onFinishP
        ∧ (run cfg acts).onFinishP ≠ none)
    ∧ (∀ a : Act, (run cfg acts).started = true →
        (step (run cfg acts) a).onFinishP = (run cfg acts).onFinishP)
    ∧ (∀ p ∈ (run cfg acts).promises, ∀ e : Err, p ≠ PromiseSt.rejected e)
    ∧ (∀ (a : Act) (i : Nat) (vs : List Nat),
        (run cfg acts).promises[i]? = some PromiseSt.unresolved →
        (step (run cfg acts) a).promises[i]? = some (PromiseSt.resolvedOk vs) →
        vs = (step (run cfg acts) a).asyncResults
        ∧ finishCt (run cfg acts).trace < finishCt (step (run cfg acts) a).trace)
    ∧ (∀ (a : Act) (i : Nat) (vs : List Nat),
        (run cfg acts).promises[i]? = some (PromiseSt.resolvedOk vs) →
        (step (run cfg acts) a).promises[i]? = some (PromiseSt.resolvedOk vs)) := by
  refine ⟨?_, ?_, ?_, ?_, ?_⟩
  · intro hst hc
    refine ⟨?_, run_StartedPr cfg acts hst⟩
    unfold startReturn
    rw [if_neg (by simp [hc]), if_pos hst]
  · intro a hst
    exact step_onFinishP_of_started _ a hst
  · exact run_PromOk cfg acts
  · intro a i vs h1 h2
    rcases step_getElem _ a i _ h1 with h3 | ⟨_, h3, h4⟩
    · rw [h2] at h3
      exact absurd (Option.some.inj h3) (by simp)
    · rw [h2] at h3
      have h5 := Option.some.inj h3
      refine ⟨?_, h4⟩
      injection h5
  · intro a i vs h1
    rcases step_getElem _ a i _ h1 with h3 | ⟨hpv, _, _⟩
    · exact h3
    · exact absurd hpv (by simp)

theorem c9_completion_future_witness :
    (startReturn (run ⟨1, 0, 0, false⟩ [.addTask 0 none none false, .start])
        = .pending (run ⟨1, 0, 0, false⟩
            [.addTask 0 none none false, .start]).onFinishP
      ∧ (run ⟨1, 0, 0, false⟩
            [.addTask 0 none none false, .start]).onFinishP ≠ none)
    ∧ ([9] = (step (run ⟨1, 0, 0, false⟩ [.addTask 0 none none false, .start])
          (.settle 0 (.ok 9))).asyncResults
      ∧ finishCt (run ⟨1, 0, 0, false⟩
            [.addTask 0 none none false, .start]).trace
          < finishCt (step (run ⟨1, 0, 0, false⟩
            [.addTask 0 none none false, .start]) (.settle 0 (.ok 9))).trace) :=
  ⟨(c9_completion_future ⟨1, 0, 0, false⟩ [.addTask 0 none none false, .start]).1
      (by decide) (by decide),
   (c9_completion_future ⟨1, 0, 0, false⟩
      [.addTask 0 none none false, .start]).2.2.2.1
      (.settle 0 (.ok 9)) 0 [9] (by decide) (by decide)⟩

theorem NodeInv.transport {s s' : AsyncScheduler} {id : Nat} (h : NodeInv s id)
    (hQ : s'.inQ id ≤ s.inQ id) (hF : s'.inF id = s.inF id)
    (hFA : s'.inFAb id = s.inFAb id)
    (hst : startCt id s'.trace = startCt id s.trace)
    (hsu : succCt id s'.trace = succCt id s.trace)
    (hre : retryCt id s'.trace = retryCt id s.trace)
    (her : errCt id s'.trace = errCt id s.trace)
    (hcm : cancelMarkCt id s'.trace = cancelMarkCt id s.trace)
    (hat : s'.attemptOf id = s.attemptOf id)
    (hfn : s'.fnCallsOf id = s.fnCallsOf id)
    (hmr : s'.maxROf id = s.maxROf id)
    (hni : s.nextId ≤ s'.nextId)
    (hds : s'.nextId ≤ id → s'.store id = defaultTask)
    (htasks : s'.nextId ≤ id → id ∉ s'.tasks) : NodeInv s' id := by
  constructor
  · have := h.uniq
    omega
  · exact hds
  · exact htasks
  · intro hle
    have := h.freshQ (le_trans hni hle)
    omega
  · intro hle; rw [hF]; exact h.freshF (le_trans hni hle)
  · intro hle; rw [hst]; exact h.freshStart (le_trans hni hle)
  · rw [hsu, her]; exact h.term_le
  · intro hh
    have := h.term_out (by rw [hsu, her] at hh; exact hh)
    omega
  · rw [hst, hsu, hre, her, hF]; exact h.balance
  · rw [hre, hat]; exact h.retry_attempt
  · rw [hat, hmr]; exact h.attempt_le
  · intro hh
    rw [hat, hmr]
    exact h.err_attempt (by rw [her] at hh; exact hh)
  · rw [hfn, hFA, hst]; exact h.fn_le
  · rw [hst, hfn, hFA, hcm]; exact h.fn_ge

theorem countP_append_ff {α : Type} (p : α → Bool) (l : List α) (e : α)
    (hp : p e = false) : (l ++ [e]).countP p = l.countP p := by
  rw [countP_appendSingleton, hp]
  simp

theorem countP_append_tt {α : Type} (p : α → Bool) (l : List α) (e : α)
    (hp : p e = true) : (l ++ [e]).countP p = l.countP p + 1 := by
  rw [countP_appendSingleton, hp]
  simp

theorem extractFlight_countP (l : List Flight) (id : Nat) (f : Flight)
    (rest : List Flight) (hx : extractFlight l id = some (f, rest)) :
    f.id = id ∧ ∀ p : Flight → Bool,
      l.countP p = rest.countP p + if p f then 1 else 0 := by
  induction l generalizing rest with
  | nil => simp [extractFlight] at hx
  | cons g gs ih =>
    unfold extractFlight at hx
    split at hx
    · rename_i hg
      obtain ⟨hf, hrest⟩ := Prod.mk.inj (Option.some.inj hx)
      subst hf
      subst hrest
      refine ⟨hg, fun p => ?_⟩
      rw [List.countP_cons]
    · rename_i hg
      split at hx
      · exact absurd hx (by simp)
      · rename_i g' rest' hx'
        obtain ⟨hf, hrest⟩ := Prod.mk.inj (Option.some.inj hx)
        subst hf
        subst hrest
        obtain ⟨hid, hcnt⟩ := ih rest' hx'
        refine ⟨hid, fun p => ?_⟩
        rw [List.countP_cons, List.countP_cons, hcnt p]
        omega

theorem inFAb_le_inF (s : AsyncScheduler) (id : Nat) : s.inFAb id ≤ s.inF id := by
  refine List.countP_mono_left fun f _ hf => ?_
  unfold AsyncScheduler.inFAb at hf
  exact (Bool.and_eq_true_iff.mp hf).1

theorem emitFinish_SchedInv (s : AsyncScheduler) (h : SchedInv s) :
    SchedInv (emitFinish s) := by
  intro id
  refine (h id).transport ?_ ?_ ?_ ?_ ?_ ?_ ?_ ?_ ?_ ?_ ?_ ?_ ?_ ?_
  · exact le_refl _
  · rfl
  · rfl
  · exact countP_append_ff _ _ _ (by simp [isStartEv])
  · exact countP_append_ff _ _ _ (by simp [isSuccessEv])
  · exact countP_append_ff _ _ _ (by simp [isRetryEv])
  · exact countP_append_ff _ _ _ (by simp [isErrorEv])
  · exact countP_append_ff _ _ _ (by simp [isCancelMark])
  · rfl
  · rfl
  · rfl
  · exact le_refl _
  · exact (h id).freshStore
  · exact (h id).freshTasks

theorem nodeinv_admit (s s' : AsyncScheduler) (id0 : Nat) (rest : List Nat)
    (b : Bool)
    (hqs : s.taskQuene = id0 :: rest)
    (hquene : s'.taskQuene = rest)
    (htr : s'.trace = s.trace ++ [SchedEvent.start id0])
    (hifl : s'.inFlight = s.inFlight ++ [⟨id0, b⟩])
    (hstore : ∀ j, j ≠ id0 → s'.store j = s.store j)
    (hat : s'.attemptOf id0 = s.attemptOf id0)
    (hmr : s'.maxROf id0 = s.maxROf id0)
    (hmro : ∀ j, j ≠ id0 → s'.maxROf j = s.maxROf j)
    (hfn : s'.fnCallsOf id0 = s.fnCallsOf id0 + (if b then 1 else 0))
    (htasks : s'.tasks = s.tasks) (hnext : s'.nextId = s.nextId)
    (h : SchedInv s) : SchedInv s' := by
  intro id
  by_cases hid : id = id0
  · subst hid
    obtain I := h id
    have hqcnt : s.inQ id = rest.count id + 1 := by
      unfold AsyncScheduler.inQ
      rw [hqs, List.count_cons]
      simp
    have hrest0 : rest.count id = 0 := by
      have := I.uniq
      omega
    have hF0 : s.inF id = 0 := by
      have := I.uniq
      omega
    have hFA0 : s.inFAb id = 0 := by
      have := inFAb_le_inF s id
      omega
    have hfresh : id < s.nextId := by
      by_contra hcon
      have := I.freshQ (by omega)
      omega
    have hQ' : s'.inQ id = 0 := by
      unfold AsyncScheduler.inQ
      rw [hquene]
      exact hrest0
    have hF' : s'.inF id = s.inF id + 1 := by
      unfold AsyncScheduler.inF
      rw [hifl]
      refine countP_append_tt _ _ _ ?_
      simp
    have hFA' : s'.inFAb id = s.inFAb id + (if b then 0 else 1) := by
      unfold AsyncScheduler.inFAb
      rw [hifl]
      cases b
      · rw [countP_append_tt _ _ _ (by simp)]
        simp
      · rw [countP_append_ff _ _ _ (by simp)]
        simp
    have hst' : startCt id s'.trace = startCt id s.trace + 1 := by
      rw [htr]
      exact countP_append_tt _ _ _ (by simp [isStartEv])
    have hsu' : succCt id s'.trace = succCt id s.trace := by
      rw [htr]
      exact countP_append_ff _ _ _ (by simp [isSuccessEv])
    have hre' : retryCt id s'.trace = retryCt id s.trace := by
      rw [htr]
      exact countP_append_ff _ _ _ (by simp [isRetryEv])
    have her' : errCt id s'.trace = errCt id s.trace := by
      rw [htr]
      exact countP_append_ff _ _ _ (by simp [isErrorEv])
    have hcm' : cancelMarkCt id s'.trace = cancelMarkCt id s.trace := by
      rw [htr]
      exact countP_append_ff _ _ _ (by simp [isCancelMark])
    have hterm0 : succCt id s.trace + errCt id s.trace = 0 := by
      by_contra hcon
      have := I.term_out (by omega)
      omega
    constructor
    · rw [hQ', hF']
      omega
    · intro hle; rw [hnext] at hle; omega
    · intro hle; rw [hnext] at hle; omega
    · intro hle; rw [hnext] at hle; omega
    · intro hle; rw [hnext] at hle; omega
    · intro hle; rw [hnext] at hle; omega
    · rw [hsu', her']
      omega
    · intro hh
      rw [hsu', her'] at hh
      omega
    · rw [hst', hsu', hre', her', hF']
      have := I.balance
      omega
    · rw [hre', hat]
      exact I.retry_attempt
    · rw [hat, hmr]
      exact I.attempt_le
    · intro hh
      rw [her'] at hh
      rw [hat, hmr]
      exact I.err_attempt hh
    · rw [hfn, hFA', hst']
      have := I.fn_le
      cases b <;> simp <;> omega
    · rw [hfn, hFA', hst', hcm']
      have := I.fn_ge
      cases b <;> simp <;> omega
  · refine (h id).transport ?_ ?_ ?_ ?_ ?_ ?_ ?_ ?_ ?_ ?_ ?_ ?_ ?_ ?_
    · unfold AsyncScheduler.inQ
      rw [hquene, hqs, List.count_cons]
      simp [Ne.symm hid]
    · unfold AsyncScheduler.inF
      rw [hifl]
      exact countP_append_ff _ _ _ (by simp [Ne.symm hid])
    · unfold AsyncScheduler.inFAb
      rw [hifl]
      exact countP_append_ff _ _ _ (by simp [Ne.symm hid])
    · rw [htr]
      exact countP_append_ff _ _ _ (by simp [isStartEv, Ne.symm hid])
    · rw [htr]
      exact countP_append_ff _ _ _ (by simp [isSuccessEv])
    · rw [htr]
      exact countP_append_ff _ _ _ (by simp [isRetryEv])
    · rw [htr]
      exact countP_append_ff _ _ _ (by simp [isErrorEv])
    · rw [htr]
      exact countP_append_ff _ _ _ (by simp [isCancelMark])
    · unfold AsyncScheduler.attemptOf AsyncScheduler.getTask
      rw [hstore id hid]
    · unfold AsyncScheduler.fnCallsOf AsyncScheduler.getTask
      rw [hstore id hid]
    · exact hmro id hid
    · rw [hnext]
    · intro hle
      rw [hstore id hid]
      exact (h id).freshStore (by omega)
    · intro hle
      rw [htasks]
      exact (h id).freshTasks (by omega)

theorem admitTask_SchedInv (s : AsyncScheduler) (id0 : Nat) (rest : List Nat)
    (hq : s.taskQuene = id0 :: rest) (h : SchedInv s) :
    SchedInv (admitTask s id0 rest) := by
  unfold admitTask
  dsimp only
  split
  · refine nodeinv_admit s _ id0 rest false hq ?_ ?_ ?_ ?_ ?_ ?_ ?_ ?_ ?_ ?_ h
    · rfl
    · rfl
    · rfl
    · intro j _; rfl
    · rfl
    · rfl
    · intro j _; rfl
    · simp [AsyncScheduler.fnCallsOf, AsyncScheduler.getTask, AsyncScheduler.emitEv]
    · rfl
    · rfl
  · refine nodeinv_admit s _ id0 rest true hq ?_ ?_ ?_ ?_ ?_ ?_ ?_ ?_ ?_ ?_ h
    · rfl
    · rfl
    · rfl
    · intro j hj
      simp only [AsyncScheduler.setTask, AsyncScheduler.getTask, AsyncScheduler.emitEv]
      simp [hj]
    · simp [AsyncScheduler.attemptOf, AsyncScheduler.setTask, AsyncScheduler.getTask,
        AsyncScheduler.emitEv]
    · simp [AsyncScheduler.maxROf, effMaxRetries, AsyncScheduler.setTask,
        AsyncScheduler.getTask, AsyncScheduler.emitEv]
    · intro j hj
      simp [AsyncScheduler.maxROf, effMaxRetries, AsyncScheduler.setTask,
        AsyncScheduler.getTask, AsyncScheduler.emitEv, hj]
    · simp [AsyncScheduler.fnCallsOf, AsyncScheduler.setTask, AsyncScheduler.getTask,
        AsyncScheduler.emitEv]
    · rfl
    · rfl

theorem runNext_SchedInv (s : AsyncScheduler) (h : SchedInv s) :
    SchedInv (runNext s) := by
  unfold runNext
  split
  · exact h
  · split
    · exact h
    · split
      · split
        · exact emitFinish_SchedInv s h
        · exact h
      · rename_i id0 rest hq
        exact admitTask_SchedInv s id0 rest hq h

theorem runNextN_SchedInv (n : Nat) (s : AsyncScheduler) (h : SchedInv s) :
    SchedInv (runNextN n s) := by
  induction n generalizing s with
  | zero => exact h
  | succ k ih => exact ih _ (runNext_SchedInv s h)

theorem allowed_ok_fn (s : AsyncScheduler) (t : TaskRec) (f : Flight) (v : Nat)
    (ha : allowedOutcome s t f (.ok v) = true) : f.fnInvoked = true := by
  unfold allowedOutcome at ha
  cases hb : f.fnInvoked
  · rw [hb] at ha
    simp at ha
  · rfl

theorem allowed_err_cancel (s : AsyncScheduler) (t : TaskRec) (f : Flight)
    (e : Err) (ha : allowedOutcome s t f (.err e) = true)
    (hb : f.fnInvoked = false) : e = Err.cancelled := by
  unfold allowedOutcome at ha
  rw [hb] at ha
  simp at ha
  exact ha

theorem settle_facts (s : AsyncScheduler) (id : Nat) (f : Flight)
    (rest : List Flight)
    (hx : extractFlight s.inFlight id = some (f, rest)) (h : SchedInv s) :
    f.id = id
    ∧ List.countP (fun g => g.id == id) rest = 0
    ∧ List.countP (fun g => g.id == id && !g.fnInvoked) rest = 0
    ∧ s.inF id = 1
    ∧ s.inQ id = 0
    ∧ s.inFAb id = (if f.fnInvoked then 0 else 1)
    ∧ succCt id s.trace = 0
    ∧ errCt id s.trace = 0
    ∧ id < s.nextId
    ∧ (∀ p : Flight → Bool, p f = false
        → List.countP p rest = List.countP p s.inFlight) := by
  obtain ⟨hfid, hcnt⟩ := extractFlight_countP s.inFlight id f rest hx
  have hidp := hcnt (fun g => g.id == id)
  rw [if_pos (by simp [hfid])] at hidp
  have hIF : s.inF id = List.countP (fun g => g.id == id) s.inFlight := rfl
  have hUq := (h id).uniq
  have hrest0 : List.countP (fun g => g.id == id) rest = 0 := by omega
  have hF1 : s.inF id = 1 := by omega
  have hQ0 : s.inQ id = 0 := by omega
  have habm : List.countP (fun g => g.id == id && !g.fnInvoked) rest
      ≤ List.countP (fun g => g.id == id) rest :=
    List.countP_mono_left fun g _ hg => (Bool.and_eq_true_iff.mp hg).1
  have hab0 : List.countP (fun g => g.id == id && !g.fnInvoked) rest = 0 := by
    omega
  have habp := hcnt (fun g => g.id == id && !g.fnInvoked)
  have hIFA : s.inFAb id
      = List.countP (fun g => g.id == id && !g.fnInvoked) s.inFlight := rfl
  have hfa : s.inFAb id = (if f.fnInvoked then 0 else 1) := by
    rw [hIFA, habp, hab0]
    cases hb : f.fnInvoked <;> simp [hfid]
  have hterm : succCt id s.trace = 0 ∧ errCt id s.trace = 0 := by
    by_contra hcon
    have h2 := (h id).term_out (by omega)
    omega
  have hfresh : id < s.nextId := by
    by_contra hcon
    have := (h id).freshF (by omega)
    omega
  refine ⟨hfid, hrest0, hab0, hF1, hQ0, hfa, hterm.1, hterm.2, hfresh, ?_⟩
  intro p hp
  have := hcnt p
  rw [hp] at this
  simp at this
  omega

theorem nodeinv_settle_other (s Z : AsyncScheduler) (id : Nat) (f : Flight)
    (rest : List Flight) (ev : SchedEvent)
    (hx : extractFlight s.inFlight id = some (f, rest))
    (h : SchedInv s)
    (hifl : Z.inFlight = rest)
    (htr : Z.trace = s.trace ++ [ev])
    (hev : ∀ id', id' ≠ id → isStartEv id' ev = false ∧ isSuccessEv id' ev = false
        ∧ isRetryEv id' ev = false ∧ isErrorEv id' ev = false
        ∧ isCancelMark id' ev = false)
    (hquene : ∀ id', id' ≠ id → Z.taskQuene.count id' ≤ s.taskQuene.count id')
    (hstore : ∀ j, j ≠ id → Z.store j = s.store j)
    (hmro : ∀ j, j ≠ id → Z.maxROf j = s.maxROf j)
    (htasks : Z.tasks = s.tasks) (hnext : Z.nextId = s.nextId)
    (id' : Nat) (hid : id' ≠ id) : NodeInv Z id' := by
  obtain ⟨hfid, _, _, _, _, _, _, _, _, hother⟩ := settle_facts s id f rest hx h
  obtain ⟨he1, he2, he3, he4, he5⟩ := hev id' hid
  refine (h id').transport ?_ ?_ ?_ ?_ ?_ ?_ ?_ ?_ ?_ ?_ ?_ ?_ ?_ ?_
  · exact hquene id' hid
  · show Z.inFlight.countP _ = _
    rw [hifl]
    exact hother _ (by simp [hfid, Ne.symm hid])
  · show Z.inFlight.countP _ = _
    rw [hifl]
    exact hother _ (by simp [hfid, Ne.symm hid])
  · rw [htr]; exact countP_append_ff _ _ _ he1
  · rw [htr]; exact countP_append_ff _ _ _ he2
  · rw [htr]; exact countP_append_ff _ _ _ he3
  · rw [htr]; exact countP_append_ff _ _ _ he4
  · rw [htr]; exact countP_append_ff _ _ _ he5
  · unfold AsyncScheduler.attemptOf AsyncScheduler.getTask
    rw [hstore id' hid]
  · unfold AsyncScheduler.fnCallsOf AsyncScheduler.getTask
    rw [hstore id' hid]
  · exact hmro id' hid
  · rw [hnext]
  · intro hle
    rw [hstore id' hid]
    exact (h id').freshStore (by omega)
  · intro hle
    rw [htasks]
    exact (h id').freshTasks (by omega)

theorem nodeinv_settle_ok (s Z : AsyncScheduler) (id : Nat) (f : Flight)
    (rest : List Flight) (v : Nat)
    (hx : extractFlight s.inFlight id = some (f, rest))
    (hfi : f.fnInvoked = true)
    (hifl : Z.inFlight = rest)
    (htr : Z.trace = s.trace ++ [SchedEvent.success id v])
    (hquene : Z.taskQuene = s.taskQuene)
    (hstore : Z.store = s.store)
    (hcfg : Z.cfg = s.cfg)
    (htasks : Z.tasks = s.tasks) (hnext : Z.nextId = s.nextId)
    (h : SchedInv s) : SchedInv Z := by
  intro id'
  by_cases hid : id' = id
  · subst hid
    obtain ⟨hfid, hr0, hrab0, hF1, hQ0, hfa, hsu0, her0, hfresh, _⟩ :=
      settle_facts s id' f rest hx h
    have I := h id'
    have hsu' : succCt id' Z.trace = succCt id' s.trace + 1 := by
      rw [htr]; exact countP_append_tt _ _ _ (by simp [isSuccessEv])
    have hst' : startCt id' Z.trace = startCt id' s.trace := by
      rw [htr]; exact countP_append_ff _ _ _ (by simp [isStartEv])
    have hre' : retryCt id' Z.trace = retryCt id' s.trace := by
      rw [htr]; exact countP_append_ff _ _ _ (by simp [isRetryEv])
    have her' : errCt id' Z.trace = errCt id' s.trace := by
      rw [htr]; exact countP_append_ff _ _ _ (by simp [isErrorEv])
    have hcm' : cancelMarkCt id' Z.trace = cancelMarkCt id' s.trace := by
      rw [htr]; exact countP_append_ff _ _ _ (by simp [isCancelMark])
    have hQ' : Z.inQ id' = 0 := by
      show Z.taskQuene.count id' = 0
      rw [hquene]
      exact hQ0
    have hF' : Z.inF id' = 0 := by
      show Z.inFlight.countP _ = 0
      rw [hifl]
      exact hr0
    have hFA' : Z.inFAb id' = 0 := by
      show Z.inFlight.countP _ = 0
      rw [hifl]
      exact hrab0
    have hat' : Z.attemptOf id' = s.attemptOf id' := by
      unfold AsyncScheduler.attemptOf AsyncScheduler.getTask
      rw [hstore]
    have hfn' : Z.fnCallsOf id' = s.fnCallsOf id' := by
      unfold AsyncScheduler.fnCallsOf AsyncScheduler.getTask
      rw [hstore]
    have hmr' : Z.maxROf id' = s.maxROf id' := by
      unfold AsyncScheduler.maxROf AsyncScheduler.getTask
      rw [hstore, hcfg]
    have hfa0 : s.inFAb id' = 0 := by rw [hfa, hfi]; rfl
    constructor
    · rw [hF']; omega
    · intro hle; rw [hnext] at hle; omega
    · intro hle; rw [hnext] at hle; omega
    · intro hle; rw [hnext] at hle; omega
    · intro hle; rw [hnext] at hle; omega
    · intro hle; rw [hnext] at hle; omega
    · rw [hsu', her']; omega
    · intro _
      rw [hQ', hF']
      exact ⟨rfl, rfl⟩
    · rw [hst', hsu', hre', her', hF']
      have := I.balance
      omega
    · rw [hre', hat']; exact I.retry_attempt
    · rw [hat', hmr']; exact I.attempt_le
    · intro hh
      rw [her'] at hh
      omega
    · rw [hfn', hFA', hst']
      have := I.fn_le
      omega
    · rw [hst', hfn', hFA', hcm']
      have := I.fn_ge
      omega
  · refine nodeinv_settle_other s Z id f rest _ hx h hifl htr ?_ ?_ ?_ ?_ htasks hnext id' hid
    · intro j hj
      refine ⟨?_, ?_, ?_, ?_, ?_⟩ <;> simp [isStartEv, isSuccessEv, isRetryEv,
        isErrorEv, isCancelMark, Ne.symm hj]
    · intro j _
      rw [hquene]
    · intro j _
      rw [hstore]
    · intro j _
      unfold AsyncScheduler.maxROf AsyncScheduler.getTask
      rw [hstore, hcfg]

theorem nodeinv_settle_retry (s Z : AsyncScheduler) (id : Nat) (f : Flight)
    (rest : List Flight) (e : Err)
    (hx : extractFlight s.inFlight id = some (f, rest))
    (hcancel : f.fnInvoked = false → e = Err.cancelled)
    (hifl : Z.inFlight = rest)
    (htr : Z.trace = s.trace ++ [SchedEvent.retry id (s.attemptOf id + 1) e])
    (hquene : Z.taskQuene = id :: s.taskQuene)
    (hstoreO : ∀ j, j ≠ id → Z.store j = s.store j)
    (hat : Z.attemptOf id = s.attemptOf id + 1)
    (hfnC : Z.fnCallsOf id = s.fnCallsOf id)
    (hmrr : Z.maxROf id = s.maxROf id)
    (hmro : ∀ j, j ≠ id → Z.maxROf j = s.maxROf j)
    (hlt : s.attemptOf id < s.maxROf id)
    (htasks : Z.tasks = s.tasks) (hnext : Z.nextId = s.nextId)
    (h : SchedInv s) : SchedInv Z := by
  intro id'
  by_cases hid : id' = id
  · subst hid
    obtain ⟨hfid, hr0, hrab0, hF1, hQ0, hfa, hsu0, her0, hfresh, _⟩ :=
      settle_facts s id' f rest hx h
    have I := h id'
    have hsu' : succCt id' Z.trace = succCt id' s.trace := by
      rw [htr]
      exact countP_append_ff _ _ _ (by simp [isSuccessEv])
    have hst' : startCt id' Z.trace = startCt id' s.trace := by
      rw [htr]
      exact countP_append_ff _ _ _ (by simp [isStartEv])
    have hre' : retryCt id' Z.trace = retryCt id' s.trace + 1 := by
      rw [htr]
      exact countP_append_tt _ _ _ (by simp [isRetryEv])
    have her' : errCt id' Z.trace = errCt id' s.trace := by
      rw [htr]
      exact countP_append_ff _ _ _ (by simp [isErrorEv])
    have hkey : startCt id' s.trace
        ≤ s.fnCallsOf id' + cancelMarkCt id' Z.trace := by
      have h1 := I.fn_ge
      cases hb : f.fnInvoked
      · have hec := hcancel hb
        subst hec
        have e1 : s.inFAb id' = 1 := by
          rw [hfa, hb]
          simp
        have e2 : cancelMarkCt id' s.trace + 1 ≤ cancelMarkCt id' Z.trace := by
          rw [htr]
          unfold cancelMarkCt
          rw [countP_appendSingleton]
          simp [isCancelMark]
        omega
      · have e1 : s.inFAb id' = 0 := by
          rw [hfa, hb]
          simp
        have e2 : cancelMarkCt id' s.trace ≤ cancelMarkCt id' Z.trace := by
          rw [htr]
          unfold cancelMarkCt
          rw [countP_appendSingleton]
          omega
        omega
    have hQ' : Z.inQ id' = 1 := by
      show Z.taskQuene.count id' = 1
      rw [hquene, List.count_cons]
      have : s.taskQuene.count id' = 0 := hQ0
      simp [this]
    have hF' : Z.inF id' = 0 := by
      show Z.inFlight.countP _ = 0
      rw [hifl]
      exact hr0
    have hFA' : Z.inFAb id' = 0 := by
      show Z.inFlight.countP _ = 0
      rw [hifl]
      exact hrab0
    constructor
    · rw [hF']
      omega
    · intro hle; rw [hnext] at hle; omega
    · intro hle; rw [hnext] at hle; omega
    · intro hle; rw [hnext] at hle; omega
    · intro hle; rw [hnext] at hle; omega
    · intro hle; rw [hnext] at hle; omega
    · rw [hsu', her']
      omega
    · intro hh
      rw [hsu', her'] at hh
      omega
    · rw [hst', hsu', hre', her', hF']
      have := I.balance
      omega
    · rw [hre', hat]
      have := I.retry_attempt
      omega
    · rw [hat, hmrr]
      omega
    · intro hh
      rw [her'] at hh
      omega
    · rw [hfnC, hFA', hst']
      have := I.fn_le
      omega
    · rw [hst', hfnC, hFA']
      omega
  · refine nodeinv_settle_other s Z id f rest _ hx h hifl htr ?_ ?_ hstoreO
      hmro htasks hnext id' hid
    · intro j hj
      refine ⟨?_, ?_, ?_, ?_, ?_⟩ <;> simp [isStartEv, isSuccessEv, isRetryEv,
        isErrorEv, isCancelMark, Ne.symm hj]
    · intro j hj
      rw [hquene, List.count_cons]
      simp [Ne.symm hj]

theorem nodeinv_settle_err (s Z : AsyncScheduler) (id : Nat) (f : Flight)
    (rest : List Flight) (e : Err)
    (hx : extractFlight s.inFlight id = some (f, rest))
    (hcancel : f.fnInvoked = false → e = Err.cancelled)
    (hifl : Z.inFlight = rest)
    (htr : Z.trace = s.trace ++ [SchedEvent.error id e])
    (hquene : Z.taskQuene = s.taskQuene)
    (hstore : Z.store = s.store)
    (hcfg : Z.cfg = s.cfg)
    (hge : s.maxROf id ≤ s.attemptOf id)
    (htasks : Z.tasks = s.tasks) (hnext : Z.nextId = s.nextId)
    (h : SchedInv s) : SchedInv Z := by
  intro id'
  by_cases hid : id' = id
  · subst hid
    obtain ⟨hfid, hr0, hrab0, hF1, hQ0, hfa, hsu0, her0, hfresh, _⟩ :=
      settle_facts s id' f rest hx h
    have I := h id'
    have hsu' : succCt id' Z.trace = succCt id' s.trace := by
      rw [htr]
      exact countP_append_ff _ _ _ (by simp [isSuccessEv])
    have hst' : startCt id' Z.trace = startCt id' s.trace := by
      rw [htr]
      exact countP_append_ff _ _ _ (by simp [isStartEv])
    have hre' : retryCt id' Z.trace = retryCt id' s.trace := by
      rw [htr]
      exact countP_append_ff _ _ _ (by simp [isRetryEv])
    have her' : errCt id' Z.trace = errCt id' s.trace + 1 := by
      rw [htr]
      exact countP_append_tt _ _ _ (by simp [isErrorEv])
    have hkey : startCt id' s.trace
        ≤ s.fnCallsOf id' + cancelMarkCt id' Z.trace := by
      have h1 := I.fn_ge
      cases hb : f.fnInvoked
      · have hec := hcancel hb
        subst hec
        have e1 : s.inFAb id' = 1 := by
          rw [hfa, hb]
          simp
        have e2 : cancelMarkCt id' s.trace + 1 ≤ cancelMarkCt id' Z.trace := by
          rw [htr]
          unfold cancelMarkCt
          rw [countP_appendSingleton]
          simp [isCancelMark]
        omega
      · have e1 : s.inFAb id' = 0 := by
          rw [hfa, hb]
          simp
        have e2 : cancelMarkCt id' s.trace ≤ cancelMarkCt id' Z.trace := by
          rw [htr]
          unfold cancelMarkCt
          rw [countP_appendSingleton]
          omega
        omega
    have hQ' : Z.inQ id' = 0 := by
      show Z.taskQuene.count id' = 0
      rw [hquene]
      exact hQ0
    have hF' : Z.inF id' = 0 := by
      show Z.inFlight.countP _ = 0
      rw [hifl]
      exact hr0
    have hFA' : Z.inFAb id' = 0 := by
      show Z.inFlight.countP _ = 0
      rw [hifl]
      exact hrab0
    have hat' : Z.attemptOf id' = s.attemptOf id' := by
      unfold AsyncScheduler.attemptOf AsyncScheduler.getTask
      rw [hstore]
    have hfn' : Z.fnCallsOf id' = s.fnCallsOf id' := by
      unfold AsyncScheduler.fnCallsOf AsyncScheduler.getTask
      rw [hstore]
    have hmr' : Z.maxROf id' = s.maxROf id' := by
      unfold AsyncScheduler.maxROf AsyncScheduler.getTask
      rw [hstore, hcfg]
    constructor
    · rw [hF']
      omega
    · intro hle; rw [hnext] at hle; omega
    · intro hle; rw [hnext] at hle; omega
    · intro hle; rw [hnext] at hle; omega
    · intro hle; rw [hnext] at hle; omega
    · intro hle; rw [hnext] at hle; omega
    · rw [hsu', her']
      omega
    · intro _
      rw [hQ', hF']
      exact ⟨rfl, rfl⟩
    · rw [hst', hsu', hre', her', hF']
      have := I.balance
      omega
    · rw [hre', hat']
      exact I.retry_attempt
    · rw [hat', hmr']
      exact I.attempt_le
    · intro _
      rw [hat', hmr']
      have := I.attempt_le
      omega
    · rw [hfn', hFA', hst']
      have := I.fn_le
      omega
    · rw [hst', hfn', hFA']
      omega
  · refine nodeinv_settle_other s Z id f rest _ hx h hifl htr ?_ ?_ ?_ ?_
      htasks hnext id' hid
    · intro j hj
      refine ⟨?_, ?_, ?_, ?_, ?_⟩ <;> simp [isStartEv, isSuccessEv, isRetryEv,
        isErrorEv, isCancelMark, Ne.symm hj]
    · intro j _
      rw [hquene]
    · intro j _
      rw [hstore]
    · intro j _
      unfold AsyncScheduler.maxROf AsyncScheduler.getTask
      rw [hstore, hcfg]

theorem stepSettle_SchedInv (s : AsyncScheduler) (id : Nat) (o : Outcome)
    (h : SchedInv s) : SchedInv (step s (.settle id o)) := by
  simp only [step]
  split
  · exact h
  · rename_i f rest hx
    split
    · rename_i ha
      unfold settleCont
      cases o with
      | ok v =>
        apply runNext_SchedInv
        refine nodeinv_settle_ok s _ id f rest v hx ?_ ?_ ?_ ?_ ?_ ?_ ?_ ?_ h
        · exact allowed_ok_fn _ _ _ _ ha
        · rfl
        · rfl
        · rfl
        · rfl
        · rfl
        · rfl
        · rfl
      | err e =>
        dsimp only
        split
        · rename_i hlt
          apply runNext_SchedInv
          refine nodeinv_settle_retry s _ id f rest e hx ?_ ?_ ?_ ?_ ?_ ?_ ?_ ?_
            ?_ ?_ ?_ ?_ h
          · intro hb
            exact allowed_err_cancel _ _ _ _ ha hb
          · rfl
          · rfl
          · rfl
          · intro j hj
            show (fun k => if k = id then _ else s.store k) j = s.store j
            simp [hj]
          · simp [AsyncScheduler.attemptOf, AsyncScheduler.setTask,
              AsyncScheduler.getTask, AsyncScheduler.emitEv]
          · simp [AsyncScheduler.fnCallsOf, AsyncScheduler.setTask,
              AsyncScheduler.getTask, AsyncScheduler.emitEv]
          · simp [AsyncScheduler.maxROf, effMaxRetries, AsyncScheduler.setTask,
              AsyncScheduler.getTask, AsyncScheduler.emitEv]
          · intro j hj
            simp [AsyncScheduler.maxROf, effMaxRetries, AsyncScheduler.setTask,
              AsyncScheduler.getTask, AsyncScheduler.emitEv, hj]
          · exact hlt
          · rfl
          · rfl
        · rename_i hge
          apply runNext_SchedInv
          refine nodeinv_settle_err s _ id f rest e hx ?_ ?_ ?_ ?_ ?_ ?_ ?_ ?_ ?_ h
          · intro hb
            exact allowed_err_cancel _ _ _ _ ha hb
          · rfl
          · rfl
          · rfl
          · rfl
          · rfl
          · exact Nat.le_of_not_lt hge
          · rfl
          · rfl
    · exact h

theorem SchedInv_frame (s s' : AsyncScheduler)
    (hq : s'.taskQuene = s.taskQuene) (hf : s'.inFlight = s.inFlight)
    (htr : s'.trace = s.trace) (hst : s'.store = s.store)
    (hcfg : s'.cfg = s.cfg) (hta : s'.tasks = s.tasks)
    (hn : s'.nextId = s.nextId) (h : SchedInv s) : SchedInv s' := by
  intro id
  refine (h id).transport ?_ ?_ ?_ ?_ ?_ ?_ ?_ ?_ ?_ ?_ ?_ ?_ ?_ ?_
  · show s'.taskQuene.count id ≤ s.taskQuene.count id
    rw [hq]
  · show s'.inFlight.countP _ = s.inFlight.countP _
    rw [hf]
  · show s'.inFlight.countP _ = s.inFlight.countP _
    rw [hf]
  · rw [htr]
  · rw [htr]
  · rw [htr]
  · rw [htr]
  · rw [htr]
  · unfold AsyncScheduler.attemptOf AsyncScheduler.getTask
    rw [hst]
  · unfold AsyncScheduler.fnCallsOf AsyncScheduler.getTask
    rw [hst]
  · unfold AsyncScheduler.maxROf AsyncScheduler.getTask
    rw [hst, hcfg]
  · rw [hn]
  · intro hle
    rw [hst]
    rw [hn] at hle
    exact (h id).freshStore hle
  · intro hle
    rw [hta]
    rw [hn] at hle
    exact (h id).freshTasks hle

theorem setTaskLike_SchedInv (s : AsyncScheduler) (tid : Nat) (t' : TaskRec)
    (hattempt : t'.attempt = (s.store tid).attempt)
    (hfn : t'.fnCalls = (s.store tid).fnCalls)
    (hretry : t'.retryOpt = (s.store tid).retryOpt)
    (hreach : tid < s.nextId)
    (h : SchedInv s) : SchedInv (s.setTask tid t') := by
  intro id
  refine (h id).transport ?_ ?_ ?_ ?_ ?_ ?_ ?_ ?_ ?_ ?_ ?_ ?_ ?_ ?_
  · exact le_refl _
  · rfl
  · rfl
  · rfl
  · rfl
  · rfl
  · rfl
  · rfl
  · unfold AsyncScheduler.attemptOf AsyncScheduler.getTask AsyncScheduler.setTask
    dsimp only
    by_cases hid : id = tid
    · subst hid
      simp [hattempt]
    · simp [hid]
  · unfold AsyncScheduler.fnCallsOf AsyncScheduler.getTask AsyncScheduler.setTask
    dsimp only
    by_cases hid : id = tid
    · subst hid
      simp [hfn]
    · simp [hid]
  · unfold AsyncScheduler.maxROf AsyncScheduler.getTask AsyncScheduler.setTask
    dsimp only
    by_cases hid : id = tid
    · subst hid
      simp [effMaxRetries, hretry]
    · simp [hid]
  · exact le_refl _
  · intro hle
    have hle2 : s.nextId ≤ id := hle
    show (fun j => if j = tid then t' else s.store j) id = defaultTask
    have hne : id ≠ tid := by omega
    simp [hne]
    exact (h id).freshStore hle
  · intro hle
    exact (h id).freshTasks hle

theorem fireExternal_SchedInv (s : AsyncScheduler) (tid : Nat)
    (h : SchedInv s) : SchedInv (fireExternal s tid) := by
  unfold AsyncScheduler.fireExternal
  dsimp only
  split
  · rename_i ht
    refine setTaskLike_SchedInv s tid _ rfl rfl rfl ?_ h
    by_contra hcon
    have hd := (h tid).freshStore (by omega)
    unfold AsyncScheduler.getTask at ht
    rw [hd] at ht
    simp [defaultTask] at ht
  · exact h

theorem cancelTask_SchedInv (s : AsyncScheduler) (cid : Nat)
    (h : SchedInv s) : SchedInv (cancelTask s cid) := by
  unfold AsyncScheduler.cancelTask
  split
  · rename_i hmem
    split
    · intro id
      refine (h id).transport ?_ ?_ ?_ ?_ ?_ ?_ ?_ ?_ ?_ ?_ ?_ ?_ ?_ ?_
      · show (s.taskQuene.erase cid).count id ≤ s.taskQuene.count id
        by_cases hid : id = cid
        · subst hid
          rw [List.count_erase_self]
          omega
        · rw [List.count_erase_of_ne hid]
      · rfl
      · rfl
      · rfl
      · rfl
      · rfl
      · rfl
      · rfl
      · rfl
      · rfl
      · rfl
      · exact le_refl _
      · intro hle
        exact (h id).freshStore hle
      · intro hle
        intro hmem2
        exact (h id).freshTasks hle ((List.erase_sublist cid s.tasks).subset hmem2)
    · refine setTaskLike_SchedInv s cid _ rfl rfl rfl ?_ h
      by_contra hcon
      exact (h cid).freshTasks (by omega) hmem
  · exact h

theorem abortAll_SchedInv (s : AsyncScheduler) (h : SchedInv s) :
    SchedInv (abortAll s) := by
  unfold AsyncScheduler.abortAll
  split
  · exact h
  · intro id
    refine (h id).transport ?_ ?_ ?_ ?_ ?_ ?_ ?_ ?_ ?_ ?_ ?_ ?_ ?_ ?_
    · show List.count id [] ≤ _
      simp
    · rfl
    · rfl
    · rfl
    · rfl
    · rfl
    · rfl
    · rfl
    · rfl
    · rfl
    · rfl
    · exact le_refl _
    · intro hle
      exact (h id).freshStore hle
    · intro hle
      simp

theorem nodeinv_addTask (s X : AsyncScheduler) (t : TaskRec)
    (hstoreX : X.store = fun j => if j = s.nextId then t else s.store j)
    (hqX : X.taskQuene
      = sortQuene (fun j => if j = s.nextId then t else s.store j)
          (s.taskQuene ++ [s.nextId]))
    (hifl : X.inFlight = s.inFlight) (htr : X.trace = s.trace)
    (hcfg : X.cfg = s.cfg) (htaX : X.tasks = s.tasks ++ [s.nextId])
    (hnext : X.nextId = s.nextId + 1)
    (hattempt : t.attempt = 0) (hfncalls : t.fnCalls = 0)
    (h : SchedInv s) : SchedInv X := by
  intro id
  by_cases hid : id = s.nextId
  · have I := h id
    have hle : s.nextId ≤ id := le_of_eq hid.symm
    have hQ0 : s.inQ id = 0 := I.freshQ hle
    have hF0 : s.inF id = 0 := I.freshF hle
    have hS0 : startCt id s.trace = 0 := I.freshStart hle
    have hbal := I.balance
    have hfle := I.fn_le
    have hQX : X.inQ id = s.inQ id + 1 := by
      unfold AsyncScheduler.inQ
      rw [hqX]
      unfold sortQuene
      rw [(List.perm_insertionSort _ _).count_eq, List.count_append]
      simp [hid]
    have hFX : X.inF id = s.inF id := by
      unfold AsyncScheduler.inF
      rw [hifl]
    have hFAX : X.inFAb id = s.inFAb id := by
      unfold AsyncScheduler.inFAb
      rw [hifl]
    have hatX : X.attemptOf id = 0 := by
      unfold AsyncScheduler.attemptOf AsyncScheduler.getTask
      rw [hstoreX]
      simp [hid, hattempt]
    have hfnX : X.fnCallsOf id = 0 := by
      unfold AsyncScheduler.fnCallsOf AsyncScheduler.getTask
      rw [hstoreX]
      simp [hid, hfncalls]
    constructor
    · rw [hQX, hFX]
      omega
    · intro hh
      exfalso
      rw [hnext] at hh
      omega
    · intro hh
      exfalso
      rw [hnext] at hh
      omega
    · intro hh
      exfalso
      rw [hnext] at hh
      omega
    · intro hh
      exfalso
      rw [hnext] at hh
      omega
    · intro hh
      exfalso
      rw [hnext] at hh
      omega
    · rw [htr]
      omega
    · intro hh
      rw [htr] at hh
      exfalso
      omega
    · rw [htr, hFX]
      omega
    · rw [htr, hatX]
      omega
    · rw [hatX]
      exact Nat.zero_le _
    · intro hh
      rw [htr] at hh
      exfalso
      omega
    · rw [hfnX, hFAX, htr]
      omega
    · rw [htr, hS0]
      exact Nat.zero_le _
  · refine (h id).transport ?_ ?_ ?_ ?_ ?_ ?_ ?_ ?_ ?_ ?_ ?_ ?_ ?_ ?_
    · show X.taskQuene.count id ≤ _
      rw [hqX]
      unfold sortQuene
      rw [(List.perm_insertionSort _ _).count_eq, List.count_append]
      simp [hid]
      exact Nat.le_refl _
    · show X.inFlight.countP _ = _
      rw [hifl]
      rfl
    · show X.inFlight.countP _ = _
      rw [hifl]
      rfl
    · rw [htr]
    · rw [htr]
    · rw [htr]
    · rw [htr]
    · rw [htr]
    · unfold AsyncScheduler.attemptOf AsyncScheduler.getTask
      rw [hstoreX]
      simp [hid]
    · unfold AsyncScheduler.fnCallsOf AsyncScheduler.getTask
      rw [hstoreX]
      simp [hid]
    · unfold AsyncScheduler.maxROf AsyncScheduler.getTask
      rw [hstoreX, hcfg]
      simp [hid]
    · rw [hnext]
      omega
    · intro hh
      rw [hnext] at hh
      rw [hstoreX]
      simp only [hid, if_false]
      exact (h id).freshStore (by omega)
    · intro hh
      rw [hnext] at hh
      rw [htaX]
      intro hmem
      rcases List.mem_append.mp hmem with h1 | h1
      · exact (h id).freshTasks (by omega) h1
      · rw [List.mem_singleton] at h1
        exact hid h1

theorem addTaskOp_SchedInv (s : AsyncScheduler) (p : Int)
    (rO tO : Option Nat) (hE : Bool) (h : SchedInv s) :
    SchedInv (addTask s p rO tO hE) := by
  unfold AsyncScheduler.addTask
  dsimp only
  split
  · exact runNext_SchedInv _
      (nodeinv_addTask s _ _ rfl rfl rfl rfl rfl rfl rfl rfl rfl h)
  · exact nodeinv_addTask s _ _ rfl rfl rfl rfl rfl rfl rfl rfl rfl h

theorem startOp_SchedInv (s : AsyncScheduler) (h : SchedInv s) :
    SchedInv (start s) := by
  unfold AsyncScheduler.start
  split
  · exact h
  · split
    · exact h
    · dsimp only
      refine runNextN_SchedInv _ _ ?_
      exact SchedInv_frame s _ rfl rfl rfl rfl rfl rfl rfl h

theorem resume_SchedInv (s : AsyncScheduler) (h : SchedInv s) :
    SchedInv (resume s) := by
  unfold AsyncScheduler.resume
  split
  · exact h
  · refine runNextN_SchedInv _ _ ?_
    exact SchedInv_frame s _ rfl rfl rfl rfl rfl rfl rfl h

theorem step_SchedInv (s : AsyncScheduler) (a : Act) (h : SchedInv s) :
    SchedInv (step s a) := by
  cases a with
  | addTask p r t hx => exact addTaskOp_SchedInv s p r t hx h
  | start => exact startOp_SchedInv s h
  | pause => exact SchedInv_frame s _ rfl rfl rfl rfl rfl rfl rfl h
  | resume => exact resume_SchedInv s h
  | cancelTask id => exact cancelTask_SchedInv s id h
  | abortAll => exact abortAll_SchedInv s h
  | fireExternal id => exact fireExternal_SchedInv s id h
  | settle id o => exact stepSettle_SchedInv s id o h

theorem initScheduler_SchedInv (cfg : Config) :
    SchedInv (initScheduler cfg) := by
  intro id
  constructor <;>
    simp [initScheduler, AsyncScheduler.inQ, AsyncScheduler.inF,
      AsyncScheduler.inFAb, startCt, succCt, retryCt, errCt, cancelMarkCt,
      AsyncScheduler.attemptOf, AsyncScheduler.fnCallsOf, AsyncScheduler.maxROf,
      AsyncScheduler.getTask, defaultTask, effMaxRetries]

theorem run_SchedInv (cfg : Config) (acts : List Act) :
    SchedInv (run cfg acts) :=
  foldl_step_preserve step_SchedInv acts (initScheduler cfg)
    (initScheduler_SchedInv cfg)

/-- C6: for every task whose work fails on every invocation for
non-cancellation reasons — formally: no success event, no retry/error event
carrying the cancellation error — and which has reached a terminal error
event, the work callable was invoked exactly R + 1 times, exactly R retry
events were emitted for it, and exactly one terminal error event was emitted,
where R is the effective retry limit the catch block computes for the task
(its stored override if positive, else the scheduler default). -/
theorem c6_retry_counts (cfg : Config) (acts : List Act) (id : Nat)
    (hsu : succCt id (run cfg acts).trace = 0)
    (hcm : cancelMarkCt id (run cfg acts).trace = 0)
    (herr : 1 ≤ errCt id (run cfg acts).trace) :
    (run cfg acts).fnCallsOf id = (run cfg acts).maxROf id + 1
    ∧ retryCt id (run cfg acts).trace = (run cfg acts).maxROf id
    ∧ errCt id (run cfg acts).trace = 1 := by
  have I := run_SchedInv cfg acts id
  have h1 := I.term_le
  have h2 := I.term_out (by omega)
  have h3 := I.balance
  have h4 := I.retry_attempt
  have h5 := I.err_attempt herr
  have h6 := I.fn_le
  have h7 := I.fn_ge
  have h8 := inFAb_le_inF (run cfg acts) id
  refine ⟨?_, ?_, ?_⟩ <;> omega

theorem c6_retry_counts_witness :
    (run ⟨1, 1, 0, false⟩
        [.addTask 0 none none false, .start, .settle 0 (.err (.exec 0)),
         .settle 0 (.err (.exec 1))]).fnCallsOf 0
      = (run ⟨1, 1, 0, false⟩
        [.addTask 0 none none false, .start, .settle 0 (.err (.exec 0)),
         .settle 0 (.err (.exec 1))]).maxROf 0 + 1
    ∧ retryCt 0 (run ⟨1, 1, 0, false⟩
        [.addTask 0 none none false, .start, .settle 0 (.err (.exec 0)),
         .settle 0 (.err (.exec 1))]).trace
      = (run ⟨1, 1, 0, false⟩
        [.addTask 0 none none false, .start, .settle 0 (.err (.exec 0)),
         .settle 0 (.err (.exec 1))]).maxROf 0
    ∧ errCt 0 (run ⟨1, 1, 0, false⟩
        [.addTask 0 none none false, .start, .settle 0 (.err (.exec 0)),
         .settle 0 (.err (.exec 1))]).trace = 1 :=
  c6_retry_counts ⟨1, 1, 0, false⟩
    [.addTask 0 none none false, .start, .settle 0 (.err (.exec 0)),
     .settle 0 (.err (.exec 1))] 0 (by decide) (by decide) (by decide)

end Tyutils
